import Mathlib

set_option linter.unusedVariables false

/-!
Verification of the sycek C style checker (`src/checker.c`, `src/ast.c`,
`src/src_pos.c`) against its natural-language specification.

The checker operates on a doubly linked sequence of tokens
(`checker_tok_t`). We embed that sequence as a `List Tok`; the C pointer
identity of a token is embedded as a numeric `id` field (original lexer
tokens carry distinct nonzero ids, whitespace tokens manufactured by the
fixer carry id 0, matching the fact that the C code never takes their
address from the AST). Mutation of the sequence becomes functional update
of the list; a checker operation addressed at a token pointer becomes an
operation addressed at the token's id.

The lexer (`lexer.c`) and parser (`parser.c`) of the repository are not
under `src/`; the token-type enumeration and `lexer_is_wspace` /
`lexer_dprint_tok` are modelled from the specification where noted.
-/

namespace Sycek

/-- Token types, reduced to the distinctions `checker.c` actually consults.
Modelled from the spec: the full `lexer_toktype_t` lives in the missing
`lexer.h`; every grammatical token (identifier, keyword, punctuator,
literal) is embedded as `Ltt.other`, its spelling being carried by the
token's `text`. -/
inductive Ltt where
  | space
  | tab
  | newline
  | comment
  | dscomment
  | preproc
  | eof
  | other
deriving DecidableEq, Repr

/-- Modelled from the spec: whitespace token kinds are `space`, `tab`,
`newline` (spec section 6, token kinds; `lexer_is_wspace` is in the missing
`lexer.c`). -/
def lexer_is_wspace (ltt : Ltt) : Bool :=
  match ltt with
  | .space => true
  | .tab => true
  | .newline => true
  | _ => false

/-- Source position, from `src_pos.h` usage in `src/src_pos.c`:
1-based line and column. -/
structure SrcPos where
  line : Nat
  col : Nat
deriving DecidableEq, Repr

/-- `src_pos_print_range` from `src/src_pos.c`: format a position range. -/
def src_pos_print_range (bpos epos : SrcPos) : String :=
  if bpos.line = epos.line ∧ bpos.col = epos.col then
    "file:" ++ toString bpos.line ++ ":" ++ toString bpos.col
  else if bpos.line = epos.line then
    "file:" ++ toString bpos.line ++ ":" ++ toString bpos.col ++ "-" ++
      toString epos.col
  else
    "file:" ++ toString bpos.line ++ ":" ++ toString bpos.col ++ "-" ++
      toString epos.line ++ ":" ++ toString epos.col

/-- A checker token (`checker_tok_t` wrapping `lexer_tok_t`): token type,
exact text, begin/end positions, and the two metadata fields written by the
checker (`indlvl`, `lbegin`). The `id` embeds C pointer identity. -/
structure Tok where
  id : Nat
  ttype : Ltt
  text : String
  bpos : SrcPos
  epos : SrcPos
  indlvl : Nat
  lbegin : Bool
deriving DecidableEq, Repr

/-- A whitespace token manufactured by `checker_prepend_wspace` /
`checker_append_wspace`: `calloc`ed, so positions and metadata are zero;
id 0 marks it as not being an original lexer token. -/
def mkWsTok (ltt : Ltt) (wstext : String) : Tok :=
  { id := 0, ttype := ltt, text := wstext, bpos := ⟨0, 0⟩, epos := ⟨0, 0⟩,
    indlvl := 0, lbegin := false }

/-- Tokens strictly before the token with id `i` (the C tokens reachable by
`checker_prev_tok` from it, in sequence order). -/
def preOf (toks : List Tok) (i : Nat) : List Tok :=
  toks.takeWhile (fun t => t.id ≠ i)

/-- The token with id `i` and everything after it. -/
def restOf (toks : List Tok) (i : Nat) : List Tok :=
  toks.dropWhile (fun t => t.id ≠ i)

/-- The token with id `i` itself. -/
def getTok (toks : List Tok) (i : Nat) : Option Tok :=
  (restOf toks i).head?

/-- `checker_prev_tok` at the token with id `i`. -/
def checker_prev_tok (toks : List Tok) (i : Nat) : Option Tok :=
  (preOf toks i).getLast?

/-- `checker_next_tok` at the token with id `i`. -/
def checker_next_tok (toks : List Tok) (i : Nat) : Option Tok :=
  match restOf toks i with
  | [] => none
  | _ :: post => post.head?

/-- `checker_is_tok_lbegin` from `src/checker.c`: walk backwards over
non-newline whitespace; the token is first on its line iff that walk ends
at the start of the sequence or at a newline. -/
def checker_is_tok_lbegin (toks : List Tok) (i : Nat) : Bool :=
  let back := (preOf toks i).reverse.dropWhile
    (fun t => lexer_is_wspace t.ttype && t.ttype ≠ Ltt.newline)
  match back.head? with
  | none => true
  | some p => p.ttype = Ltt.newline

/-- Drop the longest suffix whose elements satisfy `p` (the effect of a
backwards unlink loop that stops at the first element violating `p`). -/
def dropEndWhile (p : Tok → Bool) (l : List Tok) : List Tok :=
  (l.reverse.dropWhile p).reverse

/-- `checker_remove_ws_before` from `src/checker.c`: unlink every
whitespace token immediately preceding the token with id `i` (a no-op when
no token has that id, mirroring the C precondition that `tok` is linked). -/
def checker_remove_ws_before (toks : List Tok) (i : Nat) : List Tok :=
  match restOf toks i with
  | [] => toks
  | rest =>
    dropEndWhile (fun t => lexer_is_wspace t.ttype) (preOf toks i) ++ rest

/-- `checker_line_remove_ws_before` from `src/checker.c`: like
`checker_remove_ws_before` but stop at a newline. -/
def checker_line_remove_ws_before (toks : List Tok) (i : Nat) : List Tok :=
  match restOf toks i with
  | [] => toks
  | rest =>
    dropEndWhile (fun t => lexer_is_wspace t.ttype && t.ttype ≠ Ltt.newline)
        (preOf toks i)
      ++ rest

/-- `checker_remove_ws_after` from `src/checker.c`. -/
def checker_remove_ws_after (toks : List Tok) (i : Nat) : List Tok :=
  match restOf toks i with
  | [] => toks
  | tok :: post => preOf toks i ++ tok :: post.dropWhile (fun t => lexer_is_wspace t.ttype)

/-- `checker_prepend_wspace` from `src/checker.c`: splice a fresh
whitespace token in immediately before the token with id `i` (a no-op when
no token has that id). -/
def checker_prepend_wspace (toks : List Tok) (i : Nat) (ltt : Ltt)
    (wstext : String) : List Tok :=
  match restOf toks i with
  | [] => toks
  | rest => preOf toks i ++ mkWsTok ltt wstext :: rest

/-- `checker_append_wspace` from `src/checker.c`. -/
def checker_append_wspace (toks : List Tok) (i : Nat) (ltt : Ltt)
    (wstext : String) : List Tok :=
  match restOf toks i with
  | [] => toks
  | tok :: post => preOf toks i ++ tok :: mkWsTok ltt wstext :: post

/-- Update one token's `indlvl` if its id matches. -/
def updIndlvl (i lvl : Nat) (t : Tok) : Tok :=
  if t.id = i then { t with indlvl := lvl } else t

/-- Update one token's `lbegin` if its id matches. -/
def updLbegin (i : Nat) (t : Tok) : Tok :=
  if t.id = i then { t with lbegin := true } else t

/-- Write `indlvl` of the token with id `i` (the assignment in
`checker_check_any`). -/
def setTokIndlvl (toks : List Tok) (i lvl : Nat) : List Tok :=
  toks.map (updIndlvl i lvl)

/-- Set `lbegin` of the token with id `i` (the assignment in
`checker_check_lbegin` and the preprocessor case of
`checker_check_line_indent`). -/
def setTokLbegin (toks : List Tok) (i : Nat) : List Tok :=
  toks.map (updLbegin i)

/-- Modelled from the spec: `lexer_dprint_tok` (missing `lexer.c`) prints
the token's position range in the diagnostic form
`file:LINE:COL[-[LINE:]COL]` of `src_pos_print_range`. -/
def lexer_dprint_tok (t : Tok) : String :=
  src_pos_print_range t.bpos t.epos

/-- One printed diagnostic line: `lexer_dprint_tok` followed by
`printf(": %s\n", msg)`, without the trailing newline. -/
def diagLine (t : Tok) (msg : String) : String :=
  lexer_dprint_tok t ++ ": " ++ msg

/-- Checker state: the module's token sequence plus the diagnostics
printed so far (in order). -/
structure St where
  toks : List Tok
  diags : List String
deriving DecidableEq, Repr

/-- Append one diagnostic line. -/
def pushDiag (st : St) (s : String) : St :=
  { st with diags := st.diags ++ [s] }

/-- Diagnostic at the token with id `i` itself. -/
def pushDiagAt (st : St) (i : Nat) (msg : String) : St :=
  match getTok st.toks i with
  | some t => pushDiag st (diagLine t msg)
  | none => st

/-- `checker_check_any` from `src/checker.c`: only assign `indlvl`. -/
def checker_check_any (lvl i : Nat) (st : St) : St :=
  { st with toks := setTokIndlvl st.toks i lvl }

/-- The indentation loop of `checker_check_lbegin`: prepend `n` tab tokens
immediately before the token with id `i` (each new tab lands between the
previously inserted ones and the token). -/
def prependTabs (toks : List Tok) (i : Nat) : Nat → List Tok
  | 0 => toks
  | n + 1 => prependTabs (checker_prepend_wspace toks i Ltt.tab "\t") i n

/-- `checker_check_lbegin` from `src/checker.c`. -/
def checker_check_lbegin (fix : Bool) (lvl i : Nat) (msg : String)
    (st : St) : St :=
  let st := checker_check_any lvl i st
  let st := { st with toks := setTokLbegin st.toks i }
  if checker_is_tok_lbegin st.toks i then st
  else if fix then
    let toks := checker_remove_ws_before st.toks i
    let toks := checker_prepend_wspace toks i Ltt.newline "\n"
    { st with toks := prependTabs toks i lvl }
  else pushDiagAt st i msg

/-- `checker_check_nows_before` from `src/checker.c`. -/
def checker_check_nows_before (fix : Bool) (lvl i : Nat) (msg : String)
    (st : St) : St :=
  let st := checker_check_any lvl i st
  match checker_prev_tok st.toks i with
  | none => st
  | some p =>
    if lexer_is_wspace p.ttype then
      if fix then { st with toks := checker_remove_ws_before st.toks i }
      else pushDiag st (diagLine p msg)
    else st

/-- `checker_check_nows_after` from `src/checker.c`. -/
def checker_check_nows_after (fix : Bool) (lvl i : Nat) (msg : String)
    (st : St) : St :=
  let st := checker_check_any lvl i st
  match checker_next_tok st.toks i with
  | none => st
  | some p =>
    if lexer_is_wspace p.ttype then
      if fix then { st with toks := checker_remove_ws_after st.toks i }
      else pushDiag st (diagLine p msg)
    else st

/-- `checker_check_nsbrk_after` from `src/checker.c`. -/
def checker_check_nsbrk_after (fix : Bool) (lvl i : Nat) (msg : String)
    (st : St) : St :=
  let st := checker_check_any lvl i st
  match checker_next_tok st.toks i with
  | none => st
  | some p =>
    if lexer_is_wspace p.ttype && p.ttype ≠ Ltt.newline then
      if fix then { st with toks := checker_remove_ws_after st.toks i }
      else pushDiag st (diagLine p msg)
    else st

/-- `checker_check_brkspace_before` from `src/checker.c`. -/
def checker_check_brkspace_before (fix : Bool) (lvl i : Nat) (msg : String)
    (st : St) : St :=
  let st := checker_check_any lvl i st
  match checker_prev_tok st.toks i with
  | none => st
  | some p =>
    if ¬ lexer_is_wspace p.ttype then
      if fix then
        { st with toks := checker_prepend_wspace st.toks i Ltt.space " " }
      else pushDiag st (diagLine p msg)
    else st

/-- `checker_check_brkspace_after` from `src/checker.c`. -/
def checker_check_brkspace_after (fix : Bool) (lvl i : Nat) (msg : String)
    (st : St) : St :=
  let st := checker_check_any lvl i st
  match checker_next_tok st.toks i with
  | none => st
  | some p =>
    if ¬ lexer_is_wspace p.ttype then
      if fix then
        { st with toks := checker_append_wspace st.toks i Ltt.space " " }
      else pushDiag st (diagLine p msg)
    else st

/-- `checker_check_nbspace_before` from `src/checker.c`: report/repair
when the preceding token is not whitespace, or the token is first on its
line. -/
def checker_check_nbspace_before (fix : Bool) (lvl i : Nat) (msg : String)
    (st : St) : St :=
  let st := checker_check_any lvl i st
  match checker_prev_tok st.toks i with
  | none => st
  | some p =>
    if ¬ lexer_is_wspace p.ttype || checker_is_tok_lbegin st.toks i then
      if fix then
        let toks := checker_remove_ws_before st.toks i
        { st with toks := checker_prepend_wspace toks i Ltt.space " " }
      else pushDiag st (diagLine p msg)
    else st

/-- Enumerated constants from `src/checker.c`. -/
def line_length_limit : Nat := 80

/-- Number of spaces used to indent a continuation line (`src/checker.c`). -/
def cont_indent_spaces : Nat := 4

/-- The preprocessor adjustment at the top of `checker_check_line_indent`:
preprocessor directives always start a line, never a continuation. -/
def lineTokAdj (tok : Tok) : Tok :=
  if tok.ttype = Ltt.preproc then { tok with lbegin := true } else tok

/-- Result of `checker_check_line_indent`: the (possibly rewritten) run of
leading whitespace tokens of the line, the (possibly `lbegin`-updated)
first non-whitespace token, and the diagnostics printed. -/
structure LineIndentRes where
  pref : List Tok
  tok : Tok
  diags : List String
deriving DecidableEq, Repr

/-- `checker_check_line_indent` from `src/checker.c`. `pref` is the run of
leading `tab`/`space` tokens of the line as assembled by
`checker_module_lines` (exactly the tokens that
`checker_line_remove_ws_before(tok)` unlinks), `tabs`/`spaces`/`extra` the
counts of its three sections, `tok` the following token. -/
def checker_check_line_indent (fix : Bool) (tabs spaces extra : Nat)
    (pref : List Tok) (tok : Tok) : LineIndentRes :=
  if lexer_is_wspace tok.ttype || tok.ttype = Ltt.comment ||
      tok.ttype = Ltt.dscomment then
    ⟨pref, tok, []⟩
  else
    -- Preprocessor directives start at the beginning of a line
    let tok := lineTokAdj tok
    let c1 : Bool := extra != 0
    let c2 : Bool := tok.lbegin && spaces != 0
    let c3 : Bool := !tok.lbegin && spaces != cont_indent_spaces
    let c4 : Bool := tok.indlvl != tabs
    let c5 : Bool := tok.ttype == Ltt.tab
    let ds : List String :=
      (if c1 && !fix then
        [diagLine tok "Mixing tabs and spaces in indentation."] else []) ++
      (if c2 && !fix then
        [diagLine tok ("Non-continuation line should not have any spaces " ++
          "for indentation (found " ++ toString spaces ++ ")")] else []) ++
      (if c3 && !fix then
        [diagLine tok ("Continuation is indented by " ++ toString spaces ++
          " spaces (should be " ++ toString cont_indent_spaces ++ ")")] else []) ++
      (if c4 && !fix then
        [diagLine tok ("Wrong indentation: found " ++ toString tabs ++
          " tabs, should be " ++ toString tok.indlvl ++ " tabs")] else []) ++
      (if c5 && !fix then
        [diagLine tok "Mixing tabs and spaces."] else [])
    let need_fix : Bool := fix && (c1 || c2 || c3 || c4 || c5)
    let pref :=
      if need_fix then
        List.replicate tok.indlvl (mkWsTok Ltt.tab "\t") ++
          (if !tok.lbegin then
            List.replicate cont_indent_spaces (mkWsTok Ltt.space " ")
          else [])
      else pref
    ⟨pref, tok, ds⟩

/-- Remove the trailing run of non-newline whitespace tokens (the effect of
`checker_line_remove_ws_before` applied at the line's terminating token). -/
def dropTrailWs (l : List Tok) : List Tok :=
  dropEndWhile (fun t => lexer_is_wspace t.ttype && t.ttype ≠ Ltt.newline) l

/-- The three indentation-counting loops at the top of
`checker_module_lines`: the maximal run of tab tokens, then of space
tokens, then of further mixed space/tab tokens, and the remainder. -/
structure LineSplit where
  tabsRun : List Tok
  spacesRun : List Tok
  extraRun : List Tok
  rest : List Tok

/-- Split a line's leading whitespace as `checker_module_lines` counts
it. -/
def lineSplit (l : List Tok) : LineSplit :=
  let tabsRun := l.takeWhile (fun u => u.ttype == Ltt.tab)
  let r1 := l.dropWhile (fun u => u.ttype == Ltt.tab)
  let spacesRun := r1.takeWhile (fun u => u.ttype == Ltt.space)
  let r2 := r1.dropWhile (fun u => u.ttype == Ltt.space)
  let extraRun := r2.takeWhile
    (fun u => u.ttype == Ltt.space || u.ttype == Ltt.tab)
  let r3 := r2.dropWhile
    (fun u => u.ttype == Ltt.space || u.ttype == Ltt.tab)
  ⟨tabsRun, spacesRun, extraRun, r3⟩

/-- The end-of-line scan of `checker_module_lines`: the tokens before the
next newline/eof, and the remainder from that token on. -/
structure EolSplit where
  scanned : List Tok
  rest : List Tok

/-- Split a line's content at the next newline or eof token. -/
def eolSplit (l : List Tok) : EolSplit :=
  ⟨l.takeWhile (fun u => u.ttype != Ltt.eof && u.ttype != Ltt.newline),
   l.dropWhile (fun u => u.ttype != Ltt.eof && u.ttype != Ltt.newline)⟩

/-- The nonws/trailws flag computation of the end-of-line scan of
`checker_module_lines`: nonws records that some non-whitespace token was
seen, trailws that the last token seen was whitespace. -/
def eolFlags (scanned : List Tok) : Bool × Bool :=
  scanned.foldl
    (fun (fl : Bool × Bool) u =>
      if !(lexer_is_wspace u.ttype) then (true, false) else (fl.1, true))
    (false, false)

/-- One iteration of the line loop of `checker_module_lines` from
`src/checker.c` (one physical line): returns the tokens of the processed
line (after any repairs), the diagnostics printed, and the unprocessed
remainder. When the line ends at eof (or the sequence runs out), the
whole remainder is returned as processed output and the remainder is
empty, matching the loop exiting with the rest of the sequence
untouched. -/
def processLine (fix : Bool) (rest : List Tok) :
    List Tok × List String × List Tok :=
  let sp := lineSplit rest
  let pref := sp.tabsRun ++ sp.spacesRun ++ sp.extraRun
  match sp.rest with
  | [] => (pref, [], [])
  | tok :: r4 =>
    let li := checker_check_line_indent fix sp.tabsRun.length
      sp.spacesRun.length sp.extraRun.length pref tok
    -- Find end of line, computing the nonws/trailws flags
    let eo := eolSplit (li.tok :: r4)
    let flags := eolFlags eo.scanned
    match eo.rest with
    | [] => (li.pref ++ eo.scanned, li.diags, [])
    | tokEnd :: r6 =>
      -- Check for trailing whitespace
      let scanned2 :=
        if flags.1 && flags.2 && fix then dropTrailWs eo.scanned
        else eo.scanned
      let d2 :=
        if flags.1 && flags.2 && !fix then
          [diagLine tokEnd "Whitespace at end of line"] else []
      let d3 :=
        if tokEnd.bpos.col > 1 + line_length_limit then
          [diagLine tokEnd ("Line too long (" ++
            toString (tokEnd.bpos.col - line_length_limit - 1) ++
            " characters above " ++ toString line_length_limit ++
            " character limit)")]
        else []
      if tokEnd.ttype = Ltt.eof then
        (li.pref ++ scanned2 ++ tokEnd :: r6, li.diags ++ d2 ++ d3, [])
      else
        (li.pref ++ scanned2 ++ [tokEnd], li.diags ++ d2 ++ d3, r6)

/-- The line loop of `checker_module_lines` from `src/checker.c`,
translated to recursion over the remaining token list; one step is one
physical line. The fuel argument only serves totality: each step consumes
at least one token, so `checker_module_lines` passes enough fuel for it
never to run out. -/
def checker_module_lines_go (fix : Bool) : Nat → List Tok → List Tok × List String
  | 0, rest => (rest, [])
  | fuel + 1, rest =>
    match rest with
    | [] => ([], [])
    | t :: _ =>
      if t.ttype = Ltt.eof then (rest, [])
      else
        let pl := processLine fix rest
        let r := checker_module_lines_go fix fuel pl.2.2
        (pl.1 ++ r.1, pl.2.1 ++ r.2)

/-- `checker_module_lines` from `src/checker.c`: the per-line pass over the
whole token sequence. -/
def checker_module_lines (fix : Bool) (toks : List Tok) :
    List Tok × List String :=
  checker_module_lines_go fix (toks.length + 1) toks

/-- `checker_print` from `src/checker.c`: concatenate the text of every
token before the terminating eof token. -/
def checker_print : List Tok → String
  | [] => ""
  | t :: rest =>
    if t.ttype = Ltt.eof then "" else t.text ++ checker_print rest

/-- One spacing-predicate invocation of the AST walk of `src/checker.c`.
The walk's control flow depends only on the AST (never on the token
sequence being checked), so a node's sequence of predicate invocations is
a pure function of the node; running the node's checks equals executing
its instruction list in order. `lvl` is the scope's `indlvl` at the call. -/
inductive Ck where
  | any (lvl i : Nat)
  | lbegin (lvl i : Nat) (msg : String)
  | nowsBefore (lvl i : Nat) (msg : String)
  | nowsAfter (lvl i : Nat) (msg : String)
  | nsbrkAfter (lvl i : Nat) (msg : String)
  | brkspaceBefore (lvl i : Nat) (msg : String)
  | brkspaceAfter (lvl i : Nat) (msg : String)
  | nbspaceBefore (lvl i : Nat) (msg : String)
deriving DecidableEq, Repr

/-- Execute one spacing-predicate invocation. -/
def ckExec (fix : Bool) (st : St) : Ck → St
  | .any lvl i => checker_check_any lvl i st
  | .lbegin lvl i msg => checker_check_lbegin fix lvl i msg st
  | .nowsBefore lvl i msg => checker_check_nows_before fix lvl i msg st
  | .nowsAfter lvl i msg => checker_check_nows_after fix lvl i msg st
  | .nsbrkAfter lvl i msg => checker_check_nsbrk_after fix lvl i msg st
  | .brkspaceBefore lvl i msg => checker_check_brkspace_before fix lvl i msg st
  | .brkspaceAfter lvl i msg => checker_check_brkspace_after fix lvl i msg st
  | .nbspaceBefore lvl i msg => checker_check_nbspace_before fix lvl i msg st

/-- Execute a list of spacing-predicate invocations in order. -/
def ckRun (fix : Bool) (cks : List Ck) (st : St) : St :=
  cks.foldl (ckExec fix) st

/-!
The AST data model. Node layouts follow the structures accessed by
`src/checker.c` (and, for the declarator/specifier family, the structures
in `src/types/ast.h`); each grammatical token slot holds the id of a
checker token, `Option` where the slot may legally be null. Child lists
are chained constructors so that the whole family forms plain mutual
inductives.
-/

/-- Enum-element initializer: `tequals` and `tinit` slots, present
together (`ast_tsenum_elem_t`). -/
structure EnumInit where
  tequals : Nat
  tinit : Nat

/-- Enum element (`ast_tsenum_elem_t`): identifier, optional `= init`,
optional trailing comma. -/
structure EnumElem where
  tident : Nat
  init : Option EnumInit
  tcomma : Option Nat

mutual

/-- Type specifier (`ast_tsbasic_t` / `ast_tsident_t` / `ast_tsrecord_t` /
`ast_tsenum_t`). For records and enums the identifier and the
brace-delimited definition are optional. -/
inductive Tspec where
  | tsbasic (tbasic : Nat)
  | tsident (tident : Nat)
  | tsrecord (tsu : Nat) (tident : Option Nat) (tlbrace : Option Nat)
      (elems : RecElems) (trbrace : Option Nat)
  | tsenum (tenum : Nat) (tident : Option Nat) (tlbrace : Option Nat)
      (elems : List EnumElem) (trbrace : Option Nat)

/-- Record elements (`ast_tsrecord_elem_t` list): specifier-qualifier
list, declarator list, semicolon. -/
inductive RecElems where
  | nil
  | cons (sqlist : SqElems) (dlist : DlistEntries) (tscolon : Nat)
      (rest : RecElems)

/-- Specifier-qualifier list elements (`ast_sqlist_t`): each element is a
type qualifier or a type specifier. -/
inductive SqElems where
  | nil
  | consTqual (tqual : Nat) (rest : SqElems)
  | consTspec (ts : Tspec) (rest : SqElems)

/-- Declaration specifier elements (`ast_dspecs_t`): storage class, type
qualifier, function specifier, or type specifier. -/
inductive DsElems where
  | nil
  | consSclass (tsclass : Nat) (rest : DsElems)
  | consTqual (tqual : Nat) (rest : DsElems)
  | consFspec (tfspec : Nat) (rest : DsElems)
  | consTspec (ts : Tspec) (rest : DsElems)

/-- Declarator (`ast_dident_t` / `ast_dnoident_t` / `ast_dparen_t` /
`ast_dptr_t` / `ast_dfun_t` / `ast_darray_t`). -/
inductive Decl where
  | dnoident
  | dident (tident : Nat)
  | dparen (tlparen : Nat) (bdecl : Decl) (trparen : Nat)
  | dptr (tasterisk : Nat) (bdecl : Decl)
  | dfun (bdecl : Decl) (tlparen : Nat) (args : DfunArgs) (trparen : Nat)
  | darray (bdecl : Decl) (tlbracket : Nat) (tsize : Option Nat)
      (trbracket : Nat)

/-- Function declarator arguments (`ast_dfun_arg_t` list). -/
inductive DfunArgs where
  | nil
  | cons (dspecs : DsElems) (decl : Decl) (tcomma : Option Nat)
      (rest : DfunArgs)

/-- Declarator list entries (`ast_dlist_entry_t` list); the comma precedes
every entry but the first. -/
inductive DlistEntries where
  | nil
  | cons (tcomma : Option Nat) (decl : Decl) (rest : DlistEntries)

end

mutual

/-- Arithmetic expression, one constructor per `ant_e...` node checked by
`checker_check_expr` in `src/checker.c`. -/
inductive Expr where
  | eint (tlit : Nat)
  | echar (tlit : Nat)
  | estring (tlit : Nat)
  | eident (tident : Nat)
  | eparen (tlparen : Nat) (bexpr : Expr) (trparen : Nat)
  | ebinop (larg : Expr) (top : Nat) (rarg : Expr)
  | etcond (cond : Expr) (tqmark : Nat) (targ : Expr) (tcolon : Nat)
      (farg : Expr)
  | ecomma (larg : Expr) (tcomma : Nat) (rarg : Expr)
  | efuncall (fexpr : Expr) (tlparen : Nat) (args : CallArgs) (trparen : Nat)
  | eindex (bexpr : Expr) (tlbracket : Nat) (iexpr : Expr) (trbracket : Nat)
  | ederef (tasterisk : Nat) (bexpr : Expr)
  | eaddr (tamper : Nat) (bexpr : Expr)
  | esizeof (tsizeof : Nat) (bexpr : Expr)
  | emember (bexpr : Expr) (tperiod : Nat) (tmember : Nat)
  | eindmember (bexpr : Expr) (tarrow : Nat) (tmember : Nat)
  | eusign (tsign : Nat) (bexpr : Expr)
  | elnot (tlnot : Nat) (bexpr : Expr)
  | ebnot (tbnot : Nat) (bexpr : Expr)
  | epreadj (tadj : Nat) (bexpr : Expr)
  | epostadj (bexpr : Expr) (tadj : Nat)

/-- Function call arguments (`ast_efuncall_arg_t` list); the comma
precedes every argument but the first. -/
inductive CallArgs where
  | nil
  | cons (tcomma : Option Nat) (arg : Expr) (rest : CallArgs)

end

mutual

/-- Statement, one constructor per `ant_...` case of `checker_check_stmt`
in `src/checker.c`. In an if statement the `else` token and the false
branch are present together. -/
inductive Stmt where
  | sbreak (tbreak tscolon : Nat)
  | scontinue (tcontinue tscolon : Nat)
  | sgoto (tgoto ttarget tscolon : Nat)
  | sreturn (treturn : Nat) (arg : Option Expr) (tscolon : Nat)
  | sif (tif tlparen : Nat) (cond : Expr) (trparen : Nat) (tbranch : Block)
      (fbranch : Option (Nat × Block))
  | swhile (twhile tlparen : Nat) (cond : Expr) (trparen : Nat) (body : Block)
  | sdo (tdo : Nat) (body : Block) (twhile tlparen : Nat) (cond : Expr)
      (trparen tscolon : Nat)
  | sfor (tfor tlparen : Nat) (linit : Expr) (tscolon1 : Nat) (lcond : Expr)
      (tscolon2 : Nat) (lnext : Expr) (trparen : Nat) (body : Block)
  | sswitch (tswitch tlparen : Nat) (sexpr : Expr) (trparen : Nat)
      (body : Block)
  | sclabel (tcase : Nat) (cexpr : Expr) (tcolon : Nat)
  | sglabel (tlabel tcolon : Nat)
  | sstexpr (expr : Expr) (tscolon : Nat)

/-- Statement block (`ast_block_t`): brace tokens are present exactly when
the block has braces. -/
inductive Block where
  | mk (braces : Option (Nat × Nat)) (stmts : Stmts)

/-- Statement list of a block. -/
inductive Stmts where
  | nil
  | cons (s : Stmt) (rest : Stmts)

end

/-- Global declaration (`ast_gdecln_t` as accessed by
`checker_check_gdecln`): declaration specifiers, declarator list, optional
function body, trailing semicolon when there is no body. -/
structure Gdecln where
  dspecs : DsElems
  dlist : DlistEntries
  body : Option Block
  tscolon : Option Nat

/-- A module is the list of its global declarations
(`checker_module_check` only handles `ant_gdecln`). -/
def CModule := List Gdecln

/-- `ast_tree_first_tok` on a type specifier, from `src/ast.c`
(`ast_tsbasic_first_tok` and friends). -/
def firstTokTspec : Tspec → Nat
  | .tsbasic tbasic => tbasic
  | .tsident tident => tident
  | .tsrecord tsu _ _ _ _ => tsu
  | .tsenum tenum _ _ _ _ => tenum

/-- `ast_sqlist_first_tok` from `src/ast.c`: first token of the first
element. -/
def firstTokSqElems : SqElems → Option Nat
  | .nil => none
  | .consTqual tqual _ => some tqual
  | .consTspec ts _ => some (firstTokTspec ts)

/-- `ast_dspecs_first_tok` from `src/ast.c`. -/
def firstTokDsElems : DsElems → Option Nat
  | .nil => none
  | .consSclass tsclass _ => some tsclass
  | .consTqual tqual _ => some tqual
  | .consFspec tfspec _ => some tfspec
  | .consTspec ts _ => some (firstTokTspec ts)

/-- `ast_tree_first_tok` on a declarator, from `src/ast.c`:
`dnoident` has no token; `dfun`/`darray` fall back to their punctuator
when the base declarator is empty. -/
def firstTokDecl : Decl → Option Nat
  | .dnoident => none
  | .dident tident => some tident
  | .dparen tlparen _ _ => some tlparen
  | .dptr tasterisk _ => some tasterisk
  | .dfun bdecl tlparen _ _ =>
    match firstTokDecl bdecl with
    | some t => some t
    | none => some tlparen
  | .darray bdecl tlbracket _ _ =>
    match firstTokDecl bdecl with
    | some t => some t
    | none => some tlbracket

/-- `ast_dlist_first_tok` from `src/ast.c`: first token of the first
entry's declarator, else the separating comma of a second entry. -/
def firstTokDlist : DlistEntries → Option Nat
  | .nil => none
  | .cons _ decl rest =>
    match firstTokDecl decl with
    | some t => some t
    | none =>
      match rest with
      | .nil => none
      | .cons tcomma _ _ => tcomma

/-- Modelled from the spec: `ast_tree_first_tok` on an expression (the
expression cases live in the revision of `ast.c` that is not under
`src/`); following the pattern of the declarator cases in `src/ast.c`, it
returns the leftmost token of the subtree, which for an expression always
exists. -/
def firstTokExpr : Expr → Nat
  | .eint tlit => tlit
  | .echar tlit => tlit
  | .estring tlit => tlit
  | .eident tident => tident
  | .eparen tlparen _ _ => tlparen
  | .ebinop larg _ _ => firstTokExpr larg
  | .etcond cond _ _ _ _ => firstTokExpr cond
  | .ecomma larg _ _ => firstTokExpr larg
  | .efuncall fexpr _ _ _ => firstTokExpr fexpr
  | .eindex bexpr _ _ _ => firstTokExpr bexpr
  | .ederef tasterisk _ => tasterisk
  | .eaddr tamper _ => tamper
  | .esizeof tsizeof _ => tsizeof
  | .emember bexpr _ _ => firstTokExpr bexpr
  | .eindmember bexpr _ _ => firstTokExpr bexpr
  | .eusign tsign _ => tsign
  | .elnot tlnot _ => tlnot
  | .ebnot tbnot _ => tbnot
  | .epreadj tadj _ => tadj
  | .epostadj bexpr _ => firstTokExpr bexpr

/-!
Check-trace generators. Each `ck...` function mirrors the corresponding
`checker_check_...` function of `src/checker.c`, emitting the sequence of
spacing-predicate invocations that function performs (the walk's control
flow never depends on the token sequence, only on the AST, so this list is
a pure function of the node). `lvl` is the scope's `indlvl`; a nested
scope (`checker_scope_nested`) is `lvl + 1`.
-/

mutual

/-- `checker_check_eint` .. `checker_check_epostadj` and
`checker_check_expr` from `src/checker.c`. -/
def ckExpr (lvl : Nat) : Expr → List Ck
  | .eint tlit => [.any lvl tlit]
  | .echar tlit => [.any lvl tlit]
  | .estring tlit => [.any lvl tlit]
  | .eident tident => [.any lvl tident]
  | .eparen tlparen bexpr trparen =>
    [.nowsAfter lvl tlparen "Unexpected whitespace after \x27(\x27."] ++
    ckExpr lvl bexpr ++
    [.nowsBefore lvl trparen "Unexpected whitespace before \x27)\x27."]
  | .ebinop larg top rarg =>
    ckExpr lvl larg ++
    [.nbspaceBefore lvl top "Single space expected before binary operator.",
     .brkspaceAfter lvl top "Whitespace expected after binary operator."] ++
    ckExpr lvl rarg
  | .etcond cond tqmark targ tcolon farg =>
    ckExpr lvl cond ++
    [.nbspaceBefore lvl tqmark "Single space expected before \x27?\x27.",
     .brkspaceAfter lvl tqmark "Whitespace expected after \x27?\x27."] ++
    ckExpr lvl targ ++
    [.nbspaceBefore lvl tcolon "Single space expected before \x27:\x27.",
     .brkspaceAfter lvl tcolon "Whitespace expected after \x27:\x27."] ++
    ckExpr lvl farg
  | .ecomma larg tcomma rarg =>
    ckExpr lvl larg ++
    [.nowsBefore lvl tcomma "Single space expected before \x27,\x27.",
     .brkspaceAfter lvl tcomma "Whitespace expected after \x27,\x27."] ++
    ckExpr lvl rarg
  | .efuncall fexpr tlparen args trparen =>
    ckExpr lvl fexpr ++
    [.nowsAfter lvl tlparen "Unexpected whitespace after \x27(\x27."] ++
    ckCallArgs lvl args ++
    [.nowsBefore lvl trparen "Unexpected whitespace before \x27)\x27."]
  | .eindex bexpr tlbracket iexpr trbracket =>
    ckExpr lvl bexpr ++
    [.nowsAfter lvl tlbracket "Unexpected whitespace after \x27[\x27."] ++
    ckExpr lvl iexpr ++
    [.nowsBefore lvl trbracket "Unexpected whitespace before \x27]\x27."]
  | .ederef tasterisk bexpr =>
    [.nowsAfter lvl tasterisk "Unexpected whitespace after \x27*\x27."] ++
    ckExpr lvl bexpr
  | .eaddr tamper bexpr =>
    [.nowsAfter lvl tamper "Unexpected whitespace after \x27&\x27."] ++
    ckExpr lvl bexpr
  | .esizeof tsizeof bexpr =>
    [.nowsAfter lvl tsizeof "Unexpected whitespace after \x27sizeof\x27."] ++
    ckExpr lvl bexpr
  | .emember bexpr tperiod tmember =>
    ckExpr lvl bexpr ++
    [.nowsBefore lvl tperiod "Unexpected whitespace before \x27.\x27.",
     .nsbrkAfter lvl tperiod "Unexpected whitespace after \x27.\x27.",
     .any lvl tmember]
  | .eindmember bexpr tarrow tmember =>
    ckExpr lvl bexpr ++
    [.nowsBefore lvl tarrow "Unexpected whitespace before \x27->\x27.",
     .nsbrkAfter lvl tarrow "Unexpected whitespace after \x27->\x27.",
     .any lvl tmember]
  | .eusign tsign bexpr =>
    [.nowsAfter lvl tsign "Unexpected whitespace after unary sign operator."] ++
    ckExpr lvl bexpr
  | .elnot tlnot bexpr =>
    [.nowsAfter lvl tlnot "Unexpected whitespace after \x27!\x27."] ++
    ckExpr lvl bexpr
  | .ebnot tbnot bexpr =>
    [.nowsAfter lvl tbnot "Unexpected whitespace after \x27~\x27."] ++
    ckExpr lvl bexpr
  | .epreadj tadj bexpr =>
    [.nowsAfter lvl tadj
      "Unexpected whitespace after pre-increment/-decrement."] ++
    ckExpr lvl bexpr
  | .epostadj bexpr tadj =>
    ckExpr lvl bexpr ++
    [.nowsBefore lvl tadj
      "Unexpected whitespace before post-increment/-decrement."]

/-- The argument loop of `checker_check_efuncall` from `src/checker.c`. -/
def ckCallArgs (lvl : Nat) : CallArgs → List Ck
  | .nil => []
  | .cons tcomma arg rest =>
    (match tcomma with
     | some c =>
       [.nowsBefore lvl c "Unexpected whitespace before \x27,\x27.",
        .brkspaceAfter lvl c "Whitespace expected after \x27,\x27."]
     | none => []) ++
    ckExpr lvl arg ++
    ckCallArgs lvl rest

end

/-- The element loop of `checker_check_tsenum` from `src/checker.c`;
`lvl` is the nested scope, elements are followed by the closing-brace
check in the outer scope. -/
def ckEnumElems (lvl : Nat) : List EnumElem → List Ck
  | [] => []
  | e :: rest =>
    [.lbegin lvl e.tident "Enum field must begin on a new line."] ++
    (match e.init with
     | some ini =>
       [.nbspaceBefore lvl ini.tequals "Expected space before \x27=\x27.",
        .nbspaceBefore lvl ini.tinit "Expected whitespace before initializer."]
     | none => []) ++
    (match e.tcomma with
     | some c => [.nowsBefore lvl c "Unexpected whitespace before \x27,\x27."]
     | none => []) ++
    ckEnumElems lvl rest

mutual

/-- `checker_check_tsbasic` / `..tsident` / `..tsrecord` / `..tsenum` and
`checker_check_tspec` from `src/checker.c`. For records and enums the
member loop runs in a nested scope (`lvl + 1`), the braces are checked in
the outer scope. -/
def ckTspec (lvl : Nat) : Tspec → List Ck
  | .tsbasic tbasic => [.any lvl tbasic]
  | .tsident tident => [.any lvl tident]
  | .tsrecord tsu tident tlbrace elems trbrace =>
    [.any lvl tsu] ++
    (match tident with
     | some t => [.any lvl t]
     | none => []) ++
    (match tlbrace with
     | some t =>
       [.nbspaceBefore lvl t "Expected single space before \x27\x7b\x27."]
     | none => []) ++
    ckRecElems (lvl + 1) elems ++
    (match trbrace with
     | some t => [.lbegin lvl t "\x27\x7d\x27 must begin on a new line."]
     | none => [])
  | .tsenum tenum tident tlbrace elems trbrace =>
    [.any lvl tenum] ++
    (match tident with
     | some t => [.any lvl t]
     | none => []) ++
    (match tlbrace with
     | some t =>
       [.nbspaceBefore lvl t "Expected single space before \x27\x7b\x27."]
     | none => []) ++
    ckEnumElems (lvl + 1) elems ++
    (match trbrace with
     | some t => [.lbegin lvl t "\x27\x7d\x27 must begin on a new line."]
     | none => [])

/-- The element loop of `checker_check_tsrecord` from `src/checker.c`
(`lvl` is the nested scope). -/
def ckRecElems (lvl : Nat) : RecElems → List Ck
  | .nil => []
  | .cons sqlist dlist tscolon rest =>
    (match firstTokSqElems sqlist with
     | some t =>
       [.lbegin lvl t "Record element declaration must start on a new line."]
     | none => []) ++
    ckSqElems lvl sqlist ++
    (match firstTokDlist dlist with
     | some t => [.brkspaceBefore lvl t "Expected space before declarator."]
     | none => []) ++
    ckDlist lvl dlist ++
    [.nowsBefore lvl tscolon "Unexpected whitespace before \x27;\x27."] ++
    ckRecElems lvl rest

/-- `checker_check_sqlist` from `src/checker.c`. -/
def ckSqElems (lvl : Nat) : SqElems → List Ck
  | .nil => []
  | .consTqual tqual rest => [.any lvl tqual] ++ ckSqElems lvl rest
  | .consTspec ts rest => ckTspec lvl ts ++ ckSqElems lvl rest

/-- `checker_check_dspecs` from `src/checker.c`. -/
def ckDsElems (lvl : Nat) : DsElems → List Ck
  | .nil => []
  | .consSclass tsclass rest => [.any lvl tsclass] ++ ckDsElems lvl rest
  | .consTqual tqual rest => [.any lvl tqual] ++ ckDsElems lvl rest
  | .consFspec tfspec rest => [.any lvl tfspec] ++ ckDsElems lvl rest
  | .consTspec ts rest => ckTspec lvl ts ++ ckDsElems lvl rest

/-- `checker_check_dident` / `..dparen` / `..dptr` / `..dfun` /
`..darray` and `checker_check_decl` from `src/checker.c`. -/
def ckDecl (lvl : Nat) : Decl → List Ck
  | .dnoident => []
  | .dident tident => [.any lvl tident]
  | .dparen tlparen bdecl trparen =>
    [.nowsAfter lvl tlparen "Unexpected whitespace after \x27(\x27.",
     .nowsBefore lvl trparen "Unexpected whitespace before \x27)\x27."] ++
    ckDecl lvl bdecl
  | .dptr tasterisk bdecl =>
    [.nowsAfter lvl tasterisk "Unexpected whitespace after \x27*\x27."] ++
    ckDecl lvl bdecl
  | .dfun bdecl tlparen args trparen =>
    ckDecl lvl bdecl ++
    [.nsbrkAfter lvl tlparen "Unexpected space or tab after \x27(\x27."] ++
    ckDfunArgs lvl args ++
    [.nowsBefore lvl trparen "Unexpected whitespace before \x27)\x27."]
  | .darray bdecl tlbracket _ trbracket =>
    ckDecl lvl bdecl ++
    [.nowsAfter lvl tlbracket "Unexpected whitespace after \x27[\x27.",
     .nowsBefore lvl trbracket "Unexpected whitespace before \x27]\x27."]

/-- The argument loop of `checker_check_dfun` from `src/checker.c`. -/
def ckDfunArgs (lvl : Nat) : DfunArgs → List Ck
  | .nil => []
  | .cons dspecs decl tcomma rest =>
    ckDsElems lvl dspecs ++
    (match firstTokDecl decl with
     | some t => [.brkspaceBefore lvl t "Expected space before declarator."]
     | none => []) ++
    ckDecl lvl decl ++
    (match tcomma with
     | some c =>
       [.nowsBefore lvl c "Unexpected whitespace before \x27,\x27.",
        .brkspaceAfter lvl c "Expected whitespace after \x27,\x27."]
     | none => []) ++
    ckDfunArgs lvl rest

/-- `checker_check_dlist` from `src/checker.c`. -/
def ckDlist (lvl : Nat) : DlistEntries → List Ck
  | .nil => []
  | .cons tcomma decl rest =>
    (match tcomma with
     | some c => [.nowsBefore lvl c "Unexpected whitespace before \x27,\x27."]
     | none => []) ++
    ckDecl lvl decl ++
    ckDlist lvl rest

end

mutual

/-- `checker_check_break` .. `checker_check_stexpr` and
`checker_check_stmt` from `src/checker.c`. Case and goto labels run their
`lbegin` check at one less level of indentation. -/
def ckStmt (lvl : Nat) : Stmt → List Ck
  | .sbreak tbreak tscolon =>
    [.lbegin lvl tbreak "Statement must start on a new line.",
     .nowsBefore lvl tscolon "Unexpected whitespace before \x27;\x27."]
  | .scontinue tcontinue tscolon =>
    [.lbegin lvl tcontinue "Statement must start on a new line.",
     .nowsBefore lvl tscolon "Unexpected whitespace before \x27;\x27."]
  | .sgoto tgoto ttarget tscolon =>
    [.lbegin lvl tgoto "Statement must start on a new line.",
     .any lvl ttarget,
     .nowsBefore lvl tscolon "Unexpected whitespace before \x27;\x27."]
  | .sreturn treturn arg tscolon =>
    -- checker_check_return passes areturn->arg to checker_check_expr
    -- unconditionally; the parser (not under src/) decides whether a bare
    -- return carries an argument node. Modelled from the spec (scenario
    -- S3 uses a bare return), an absent argument runs no expression
    -- checks.
    [.lbegin lvl treturn "Statement must start on a new line."] ++
    (match arg with
     | some e => ckExpr lvl e
     | none => []) ++
    [.nowsBefore lvl tscolon "Unexpected whitespace before \x27;\x27."]
  | .sif tif tlparen cond trparen tbranch fbranch =>
    [.lbegin lvl tif "Statement must start on a new line.",
     .nbspaceBefore lvl tlparen
       "There must be single space between \x27if\x27 and \x27(\x27.",
     .nsbrkAfter lvl tlparen "There must not be space after \x27(\x27."] ++
    ckExpr lvl cond ++
    [.nowsBefore lvl trparen
      "There must not be whitespace before \x27)\x27."] ++
    ckBlock lvl tbranch ++
    (match fbranch with
     | some (telse, fb) =>
       (match tbranch with
        | .mk (some _) _ =>
          [.nbspaceBefore lvl telse
            "There must be single space between \x27\x7d\x27 and \x27else\x27."]
        | .mk none _ =>
          [.lbegin lvl telse "\x27else\x27 must begin on a new line."]) ++
       ckBlock lvl fb
     | none => [])
  | .swhile twhile tlparen cond trparen body =>
    [.lbegin lvl twhile "Statement must start on a new line.",
     .nbspaceBefore lvl tlparen
       "There must be single space between \x27while\x27 and \x27(\x27.",
     .nsbrkAfter lvl tlparen "There must not be space after \x27(\x27."] ++
    ckExpr lvl cond ++
    [.nowsBefore lvl trparen "Unexpected whitespace before \x27)\x27."] ++
    ckBlock lvl body
  | .sdo tdo body twhile tlparen cond trparen tscolon =>
    [.lbegin lvl tdo "Statement must start on a new line."] ++
    ckBlock lvl body ++
    (match body with
     | .mk (some _) _ =>
       [.nbspaceBefore lvl twhile
         "There must be single space between \x27\x7d\x27 and \x27while\x27."]
     | .mk none _ =>
       [.lbegin lvl twhile "\x27while\x27 must begin on a new line."]) ++
    [.nbspaceBefore lvl tlparen
       "There must be single space between \x27while\x27 and \x27(\x27.",
     .nsbrkAfter lvl tlparen "There must not be space after \x27(\x27."] ++
    ckExpr lvl cond ++
    [.nowsBefore lvl trparen "Unexpected whitespace before \x27)\x27.",
     .nowsBefore lvl tscolon "Unexpected whitespace before \x27;\x27."]
  | .sfor tfor tlparen linit tscolon1 lcond tscolon2 lnext trparen body =>
    [.lbegin lvl tfor "Statement must start on a new line.",
     .nbspaceBefore lvl tlparen
       "There must be single space between \x27for\x27 and \x27(\x27.",
     .nsbrkAfter lvl tlparen "There must not be space after \x27(\x27."] ++
    ckExpr lvl linit ++
    [.nowsBefore lvl tscolon1 "Unexpected whitespace before \x27;\x27.",
     .brkspaceAfter lvl tscolon1 "Expected space after \x27;\x27."] ++
    ckExpr lvl lcond ++
    [.nowsBefore lvl tscolon2 "Unexpected whitespace before \x27;\x27.",
     .brkspaceAfter lvl tscolon2 "Expected space after \x27;\x27."] ++
    ckExpr lvl lnext ++
    [.nowsBefore lvl trparen "Unexpected whitespace before \x27)\x27."] ++
    ckBlock lvl body
  | .sswitch tswitch tlparen sexpr trparen body =>
    [.lbegin lvl tswitch "Statement must start on a new line.",
     .nbspaceBefore lvl tlparen
       "There must be single space between \x27switch\x27 and \x27(\x27.",
     .nsbrkAfter lvl tlparen "There must not be space after \x27(\x27."] ++
    ckExpr lvl sexpr ++
    [.nowsBefore lvl trparen "Unexpected whitespace before \x27)\x27."] ++
    ckBlock lvl body
  | .sclabel tcase cexpr tcolon =>
    [.lbegin (lvl - 1) tcase "Case label must start on a new line.",
     .nbspaceBefore lvl (firstTokExpr cexpr)
       "There must be single space between \x27case\x27 and case expression."] ++
    ckExpr lvl cexpr ++
    [.nowsBefore lvl tcolon "Unexpected whitespace before \x27:\x27."]
  | .sglabel tlabel tcolon =>
    [.lbegin (lvl - 1) tlabel "Label must start on a new line.",
     .nowsBefore lvl tcolon "Unexpected whitespace before \x27:\x27."]
  | .sstexpr expr tscolon =>
    [.lbegin lvl (firstTokExpr expr) "Statement must start on a new line."] ++
    ckExpr lvl expr ++
    [.nowsBefore lvl tscolon "Unexpected whitespace before \x27;\x27."]

/-- `checker_check_block` from `src/checker.c`: optional opening-brace
space check, statements in a nested scope, closing brace beginning a new
line in the outer scope. -/
def ckBlock (lvl : Nat) : Block → List Ck
  | .mk braces stmts =>
    (match braces with
     | some (topen, _) =>
       [.nbspaceBefore lvl topen
         "Expected single space before block opening brace."]
     | none => []) ++
    ckStmts (lvl + 1) stmts ++
    (match braces with
     | some (_, tclose) =>
       [.lbegin lvl tclose "Block closing brace must start on a new line."]
     | none => [])

/-- The statement loop shared by `checker_check_block` and
`checker_check_gdecln` from `src/checker.c`. -/
def ckStmts (lvl : Nat) : Stmts → List Ck
  | .nil => []
  | .cons s rest => ckStmt lvl s ++ ckStmts lvl rest

end

/-- `checker_check_gdecln` from `src/checker.c`. -/
def ckGdecln (lvl : Nat) (g : Gdecln) : List Ck :=
  (match firstTokDsElems g.dspecs with
   | some t => [.lbegin lvl t "Declaration must start on a new line."]
   | none => []) ++
  ckDsElems lvl g.dspecs ++
  (match firstTokDlist g.dlist with
   | some t => [.brkspaceBefore lvl t "Expected space before declarator."]
   | none => []) ++
  ckDlist lvl g.dlist ++
  (match g.body with
   | none =>
     match g.tscolon with
     | some t => [.nowsBefore lvl t "Unexpected whitespace before \x27;\x27."]
     | none => []
   | some (.mk braces stmts) =>
     match braces with
     | some (topen, tclose) =>
       [.lbegin lvl topen "Function opening brace must start on a new line."] ++
       ckStmts (lvl + 1) stmts ++
       [.lbegin lvl tclose "Function closing brace must start on a new line."]
     | none => [])

/-- `checker_module_check` from `src/checker.c`: check every global
declaration in a top-level scope (`indlvl` 0). -/
def ckModule (m : CModule) : List Ck :=
  (m.map (ckGdecln 0)).flatten

/-- The AST-walk pass of `src/checker.c` as a state transformer. -/
def checker_module_check (fix : Bool) (m : CModule) (toks : List Tok) : St :=
  ckRun fix (ckModule m) ⟨toks, []⟩

/-- Both checking passes of `checker_run` on an already lexed and parsed
module: the AST walk, then the line pass; diagnostics in print order. -/
def checkerPasses (fix : Bool) (m : CModule) (toks : List Tok) :
    List Tok × List String :=
  let st1 := checker_module_check fix m toks
  let r2 := checker_module_lines fix st1.toks
  (r2.1, st1.diags ++ r2.2)

/-- Return codes (`merrno.h` is not under `src/`; `EOK` is success, the
others are the fatal errors `checker_run` can propagate). -/
inductive Rc where
  | eok
  | enomem
  | eio
  | eparse
deriving DecidableEq, Repr

/-- `checker_module_t`: the token sequence, and the AST once
`checker_module_parse` has succeeded. -/
structure ModuleData where
  toks : List Tok
  ast : Option CModule

/-- `checker_t`: the outcome of lexing the checker's input (the lexer is
not under `src/`, so it is carried as data), and the module once built. -/
structure Checker where
  lexRes : Except Rc (List Tok)
  mod : Option ModuleData

/-- `checker_run` from `src/checker.c`: lex, parse and check only when no
module has been built yet; afterwards do nothing and return `EOK`. The
parser (`parser.c`, not under `src/`) is passed as a function. Returns the
updated checker, the diagnostics printed by this call, and the return
code. -/
def checker_run (parse : List Tok → Except Rc CModule) (c : Checker)
    (fix : Bool) : Checker × List String × Rc :=
  match c.mod with
  | some _ => (c, [], Rc.eok)
  | none =>
    match c.lexRes with
    | .error rc => (c, [], rc)
    | .ok toks =>
      match parse toks with
      | .error rc =>
        ({ lexRes := c.lexRes, mod := some ⟨toks, none⟩ }, [], rc)
      | .ok ast =>
        let r := checkerPasses fix ast toks
        ({ lexRes := c.lexRes, mod := some ⟨r.1, some ast⟩ }, r.2, Rc.eok)

/-!
Concrete scenarios. Positions are those the lexer assigns: 1-based line
and column, `bpos`/`epos` the first and last byte of the token; each
whitespace character is one token (the line pass counts indentation by
counting tab tokens).
-/

/-- Build an original (lexer-produced) token: metadata zeroed as by
`calloc`. -/
def mkTok (id : Nat) (ttype : Ltt) (text : String) (bl bc el ec : Nat) : Tok :=
  { id := id, ttype := ttype, text := text, bpos := ⟨bl, bc⟩,
    epos := ⟨el, ec⟩, indlvl := 0, lbegin := false }

/-- Token sequence of scenario S3, input `if (x){\n\treturn;\n}\n`. -/
def s3toks : List Tok :=
  [mkTok 1 Ltt.other "if" 1 1 1 2,
   mkTok 2 Ltt.space " " 1 3 1 3,
   mkTok 3 Ltt.other "(" 1 4 1 4,
   mkTok 4 Ltt.other "x" 1 5 1 5,
   mkTok 5 Ltt.other ")" 1 6 1 6,
   mkTok 6 Ltt.other "\x7b" 1 7 1 7,
   mkTok 7 Ltt.newline "\n" 1 8 1 8,
   mkTok 8 Ltt.tab "\t" 2 1 2 1,
   mkTok 9 Ltt.other "return" 2 2 2 7,
   mkTok 10 Ltt.other ";" 2 8 2 8,
   mkTok 11 Ltt.newline "\n" 2 9 2 9,
   mkTok 12 Ltt.other "\x7d" 3 1 3 1,
   mkTok 13 Ltt.newline "\n" 3 2 3 2,
   mkTok 14 Ltt.eof "" 4 1 4 1]

/-- AST of scenario S3: an if statement with a braced block holding one
bare return. -/
def s3stmt : Stmt :=
  .sif 1 3 (.eident 4) 5
    (.mk (some (6, 12)) (.cons (.sreturn 9 none 10) .nil)) none

/-- Scenario S3 run: the fragment is a single statement; modelled from
the spec, it is checked at the top-level scope (the parser's handling of a
bare statement fragment is not under `src/`), followed by the line pass as
in `checker_run`. -/
def s3run (fix : Bool) : List Tok × List String :=
  let st1 := ckRun fix (ckStmt 0 s3stmt) ⟨s3toks, []⟩
  let r2 := checker_module_lines fix st1.toks
  (r2.1, st1.diags ++ r2.2)

/-- Token sequence for the input `int f(void)\n{\nreturn 0;\n}\n`
(wrongly indented `return`, as in scenario S2). -/
def dirtyToks : List Tok :=
  [mkTok 1 Ltt.other "int" 1 1 1 3,
   mkTok 2 Ltt.space " " 1 4 1 4,
   mkTok 3 Ltt.other "f" 1 5 1 5,
   mkTok 4 Ltt.other "(" 1 6 1 6,
   mkTok 5 Ltt.other "void" 1 7 1 10,
   mkTok 6 Ltt.other ")" 1 11 1 11,
   mkTok 7 Ltt.newline "\n" 1 12 1 12,
   mkTok 8 Ltt.other "\x7b" 2 1 2 1,
   mkTok 9 Ltt.newline "\n" 2 2 2 2,
   mkTok 10 Ltt.other "return" 3 1 3 6,
   mkTok 11 Ltt.space " " 3 7 3 7,
   mkTok 12 Ltt.other "0" 3 8 3 8,
   mkTok 13 Ltt.other ";" 3 9 3 9,
   mkTok 14 Ltt.newline "\n" 3 10 3 10,
   mkTok 15 Ltt.other "\x7d" 4 1 4 1,
   mkTok 16 Ltt.newline "\n" 4 2 4 2,
   mkTok 17 Ltt.eof "" 5 1 5 1]

/-- AST of `int f(void) { return 0; }`. -/
def dirtyAst : CModule :=
  [{ dspecs := .consTspec (.tsbasic 1) .nil,
     dlist := .cons none
       (.dfun (.dident 3) 4
         (.cons (.consTspec (.tsbasic 5) .nil) .dnoident none .nil) 6)
       .nil,
     body := some (.mk (some (8, 15))
       (.cons (.sreturn 10 (some (.eint 12)) 13) .nil)),
     tscolon := none }]

/-- Token sequence for the clean input `int f(void)\n{\n\treturn 0;\n}\n`. -/
def cleanToks : List Tok :=
  [mkTok 1 Ltt.other "int" 1 1 1 3,
   mkTok 2 Ltt.space " " 1 4 1 4,
   mkTok 3 Ltt.other "f" 1 5 1 5,
   mkTok 4 Ltt.other "(" 1 6 1 6,
   mkTok 5 Ltt.other "void" 1 7 1 10,
   mkTok 6 Ltt.other ")" 1 11 1 11,
   mkTok 7 Ltt.newline "\n" 1 12 1 12,
   mkTok 8 Ltt.other "\x7b" 2 1 2 1,
   mkTok 9 Ltt.newline "\n" 2 2 2 2,
   mkTok 10 Ltt.tab "\t" 3 1 3 1,
   mkTok 11 Ltt.other "return" 3 2 3 7,
   mkTok 12 Ltt.space " " 3 8 3 8,
   mkTok 13 Ltt.other "0" 3 9 3 9,
   mkTok 14 Ltt.other ";" 3 10 3 10,
   mkTok 15 Ltt.newline "\n" 3 11 3 11,
   mkTok 16 Ltt.other "\x7d" 4 1 4 1,
   mkTok 17 Ltt.newline "\n" 4 2 4 2,
   mkTok 18 Ltt.eof "" 5 1 5 1]

/-- AST of the clean `int f(void) { return 0; }`. -/
def cleanAst : CModule :=
  [{ dspecs := .consTspec (.tsbasic 1) .nil,
     dlist := .cons none
       (.dfun (.dident 3) 4
         (.cons (.consTspec (.tsbasic 5) .nil) .dnoident none .nil) 6)
       .nil,
     body := some (.mk (some (8, 16))
       (.cons (.sreturn 11 (some (.eint 13)) 14) .nil)),
     tscolon := none }]

/-- Modelled from the spec: the spec's reading of `nbspace-before(msg)`,
"exactly one space is required" — the token with id `i` is preceded by
exactly one space token (a space token whose own predecessor, if any, is
not whitespace). Stated from the spec's words, to be compared with
`checker_check_nbspace_before` from the source. -/
def spec_preceded_by_exactly_one_space (toks : List Tok) (i : Nat) : Bool :=
  match (preOf toks i).reverse with
  | [] => false
  | p :: back =>
    p.ttype == Ltt.space &&
      (match back with
       | [] => true
       | q :: _ => !(lexer_is_wspace q.ttype))

/-- Tokens of the fragment `x␣␣{`: the brace (id 4) is preceded by two
space tokens. -/
def c2toks : List Tok :=
  [mkTok 1 Ltt.other "x" 1 1 1 1,
   mkTok 2 Ltt.space " " 1 2 1 2,
   mkTok 3 Ltt.space " " 1 3 1 3,
   mkTok 4 Ltt.other "\x7b" 1 4 1 4]

/-!
Observations of a token sequence, against which the frame and invariance
theorems are stated.
-/

/-- Everything about a token except the `indlvl`/`lbegin` metadata
written by the checks: identity, kind, text and positions. -/
def stripMeta (t : Tok) : Nat × Ltt × String × SrcPos × SrcPos :=
  (t.id, t.ttype, t.text, t.bpos, t.epos)

/-- The subsequence of non-whitespace tokens, as kind/text pairs. -/
def nonWsKT (l : List Tok) : List (Ltt × String) :=
  (l.filter (fun t => !(lexer_is_wspace t.ttype))).map (fun t => (t.ttype, t.text))

/-- Ids of original (lexer-produced) tokens in sequence order;
fixer-manufactured whitespace tokens carry id 0 and are excluded. -/
def idsOf (l : List Tok) : List Nat :=
  (l.map Tok.id).filter (fun i => i ≠ 0)

/-- Line-lexicographic order on begin positions. -/
def bposLe (a b : Tok) : Bool :=
  a.bpos.line < b.bpos.line ||
    (a.bpos.line == b.bpos.line && a.bpos.col ≤ b.bpos.col)

/-- Each adjacent pair of `bpos` values is non-decreasing
(line-lexicographically) along the sequence. -/
def bposNondecreasingB : List Tok → Bool
  | [] => true
  | [_] => true
  | a :: b :: rest => bposLe a b && bposNondecreasingB (b :: rest)

/-- `bpos` values are non-decreasing along the sequence. -/
def bposNondecreasing (l : List Tok) : Prop :=
  bposNondecreasingB l = true

instance (l : List Tok) : Decidable (bposNondecreasing l) :=
  inferInstanceAs (Decidable (bposNondecreasingB l = true))

/-! Facts determined by the `stripMeta` image. -/

theorem stripMeta_eq_iff {t u : Tok} :
    stripMeta t = stripMeta u ↔
    (t.id = u.id ∧ t.ttype = u.ttype ∧ t.text = u.text ∧
     t.bpos = u.bpos ∧ t.epos = u.epos) := by
  simp [stripMeta]

theorem nonWsKT_cons (t : Tok) (ts : List Tok) :
    nonWsKT (t :: ts) =
      if lexer_is_wspace t.ttype then nonWsKT ts
      else (t.ttype, t.text) :: nonWsKT ts := by
  by_cases hws : lexer_is_wspace t.ttype <;>
    simp [nonWsKT, List.filter_cons, hws]

theorem idsOf_cons (t : Tok) (ts : List Tok) :
    idsOf (t :: ts) = if t.id = 0 then idsOf ts else t.id :: idsOf ts := by
  by_cases h : t.id = 0 <;> simp [idsOf, List.filter_cons, h]

theorem nonWsKT_eq_of_stripMeta : ∀ {a b : List Tok},
    a.map stripMeta = b.map stripMeta → nonWsKT a = nonWsKT b := by
  intro a
  induction a with
  | nil => intro b h; cases b with
    | nil => rfl
    | cons u us => simp at h
  | cons t ts ih =>
    intro b h
    cases b with
    | nil => simp at h
    | cons u us =>
      simp only [List.map_cons, List.cons.injEq] at h
      obtain ⟨h1, h2⟩ := h
      obtain ⟨hid, htt, htx, hb, he⟩ := stripMeta_eq_iff.mp h1
      rw [nonWsKT_cons, nonWsKT_cons, htt, htx, ih h2]

theorem idsOf_eq_of_stripMeta : ∀ {a b : List Tok},
    a.map stripMeta = b.map stripMeta → idsOf a = idsOf b := by
  intro a
  induction a with
  | nil => intro b h; cases b with
    | nil => rfl
    | cons u us => simp at h
  | cons t ts ih =>
    intro b h
    cases b with
    | nil => simp at h
    | cons u us =>
      simp only [List.map_cons, List.cons.injEq] at h
      obtain ⟨h1, h2⟩ := h
      obtain ⟨hid, -, -, -, -⟩ := stripMeta_eq_iff.mp h1
      rw [idsOf_cons, idsOf_cons, hid, ih h2]

theorem checker_print_eq_of_stripMeta : ∀ {a b : List Tok},
    a.map stripMeta = b.map stripMeta → checker_print a = checker_print b := by
  intro a
  induction a with
  | nil => intro b h; cases b with
    | nil => rfl
    | cons u us => simp at h
  | cons t ts ih =>
    intro b h
    cases b with
    | nil => simp at h
    | cons u us =>
      simp only [List.map_cons, List.cons.injEq] at h
      obtain ⟨h1, h2⟩ := h
      obtain ⟨-, htt, htx, -, -⟩ := stripMeta_eq_iff.mp h1
      simp only [checker_print, htt, htx, ih h2]

/-! Token-sequence algebra. -/

theorem nonWsKT_append (a b : List Tok) :
    nonWsKT (a ++ b) = nonWsKT a ++ nonWsKT b := by
  simp [nonWsKT, List.filter_append]

theorem idsOf_append (a b : List Tok) :
    idsOf (a ++ b) = idsOf a ++ idsOf b := by
  simp [idsOf, List.filter_append]

theorem nonWsKT_eq_nil (l : List Tok)
    (h : ∀ t ∈ l, lexer_is_wspace t.ttype) : nonWsKT l = [] := by
  induction l with
  | nil => rfl
  | cons t ts ih =>
    rw [nonWsKT_cons]
    have ht := h t (List.mem_cons_self t ts)
    simp only [ht, if_true]
    exact ih (fun u hu => h u (List.mem_cons_of_mem _ hu))

theorem idsOf_sublist {a b : List Tok} (h : a.Sublist b) :
    (idsOf a).Sublist (idsOf b) :=
  List.Sublist.filter _ (List.Sublist.map _ h)

theorem dropEndWhile_decomp (p : Tok → Bool) (l : List Tok) :
    ∃ sfx, l = dropEndWhile p l ++ sfx ∧ ∀ t ∈ sfx, p t := by
  refine ⟨(l.reverse.takeWhile p).reverse, ?_, ?_⟩
  · conv_lhs =>
      rw [← List.reverse_reverse l,
        ← List.takeWhile_append_dropWhile p l.reverse]
    rw [List.reverse_append]
    rfl
  · intro t ht
    rw [List.mem_reverse] at ht
    exact List.mem_takeWhile_imp ht

theorem dropEndWhile_sublist (p : Tok → Bool) (l : List Tok) :
    (dropEndWhile p l).Sublist l := by
  obtain ⟨sfx, hd, -⟩ := dropEndWhile_decomp p l
  conv_rhs => rw [hd]
  exact List.sublist_append_left _ _

theorem nonWsKT_dropEndWhile (p : Tok → Bool) (l : List Tok)
    (hp : ∀ t, p t → lexer_is_wspace t.ttype) :
    nonWsKT (dropEndWhile p l) = nonWsKT l := by
  obtain ⟨sfx, hd, hall⟩ := dropEndWhile_decomp p l
  conv_rhs => rw [hd]
  rw [nonWsKT_append, nonWsKT_eq_nil sfx (fun t ht => hp t (hall t ht))]
  simp

theorem preOf_append_restOf (toks : List Tok) (i : Nat) :
    preOf toks i ++ restOf toks i = toks :=
  List.takeWhile_append_dropWhile _ _

/-! Effect of each sequence operation on the observations. -/

theorem stripMeta_updIndlvl (i lvl : Nat) (t : Tok) :
    stripMeta (updIndlvl i lvl t) = stripMeta t := by
  unfold updIndlvl
  split <;> rfl

theorem stripMeta_updLbegin (i : Nat) (t : Tok) :
    stripMeta (updLbegin i t) = stripMeta t := by
  unfold updLbegin
  split <;> rfl

theorem map_stripMeta_setTokIndlvl (toks : List Tok) (i lvl : Nat) :
    (setTokIndlvl toks i lvl).map stripMeta = toks.map stripMeta := by
  unfold setTokIndlvl
  rw [List.map_map]
  exact List.map_congr_left (fun t _ => stripMeta_updIndlvl i lvl t)

theorem map_stripMeta_setTokLbegin (toks : List Tok) (i : Nat) :
    (setTokLbegin toks i).map stripMeta = toks.map stripMeta := by
  unfold setTokLbegin
  rw [List.map_map]
  exact List.map_congr_left (fun t _ => stripMeta_updLbegin i t)

theorem checker_remove_ws_before_sublist (toks : List Tok) (i : Nat) :
    (checker_remove_ws_before toks i).Sublist toks := by
  unfold checker_remove_ws_before
  cases hr : restOf toks i with
  | nil => exact List.Sublist.refl _
  | cons a post =>
    conv_rhs => rw [← preOf_append_restOf toks i, hr]
    exact List.Sublist.append (dropEndWhile_sublist _ _) (List.Sublist.refl _)

theorem nonWsKT_checker_remove_ws_before (toks : List Tok) (i : Nat) :
    nonWsKT (checker_remove_ws_before toks i) = nonWsKT toks := by
  unfold checker_remove_ws_before
  cases hr : restOf toks i with
  | nil => rfl
  | cons a post =>
    conv_rhs => rw [← preOf_append_restOf toks i, hr]
    rw [nonWsKT_append, nonWsKT_append,
      nonWsKT_dropEndWhile _ _ (fun t h => h)]

theorem checker_line_remove_ws_before_sublist (toks : List Tok) (i : Nat) :
    (checker_line_remove_ws_before toks i).Sublist toks := by
  unfold checker_line_remove_ws_before
  cases hr : restOf toks i with
  | nil => exact List.Sublist.refl _
  | cons a post =>
    conv_rhs => rw [← preOf_append_restOf toks i, hr]
    exact List.Sublist.append (dropEndWhile_sublist _ _) (List.Sublist.refl _)

theorem nonWsKT_checker_line_remove_ws_before (toks : List Tok) (i : Nat) :
    nonWsKT (checker_line_remove_ws_before toks i) = nonWsKT toks := by
  unfold checker_line_remove_ws_before
  cases hr : restOf toks i with
  | nil => rfl
  | cons a post =>
    conv_rhs => rw [← preOf_append_restOf toks i, hr]
    rw [nonWsKT_append, nonWsKT_append,
      nonWsKT_dropEndWhile _ _ (fun t h => ((Bool.and_eq_true _ _).mp h).1)]

theorem dropTrailWs_sublist (l : List Tok) : (dropTrailWs l).Sublist l :=
  dropEndWhile_sublist _ _

theorem nonWsKT_dropTrailWs (l : List Tok) : nonWsKT (dropTrailWs l) = nonWsKT l :=
  nonWsKT_dropEndWhile _ _ (fun t h => ((Bool.and_eq_true _ _).mp h).1)

theorem checker_remove_ws_after_sublist (toks : List Tok) (i : Nat) :
    (checker_remove_ws_after toks i).Sublist toks := by
  unfold checker_remove_ws_after
  cases hr : restOf toks i with
  | nil => exact List.Sublist.refl _
  | cons tok post =>
    conv_rhs => rw [← preOf_append_restOf toks i, hr]
    exact List.Sublist.append (List.Sublist.refl _)
      (List.Sublist.cons₂ tok (List.dropWhile_sublist _))

theorem nonWsKT_checker_remove_ws_after (toks : List Tok) (i : Nat) :
    nonWsKT (checker_remove_ws_after toks i) = nonWsKT toks := by
  unfold checker_remove_ws_after
  cases hr : restOf toks i with
  | nil => rfl
  | cons tok post =>
    conv_rhs => rw [← preOf_append_restOf toks i, hr]
    have h0 : nonWsKT (post.takeWhile (fun t => lexer_is_wspace t.ttype)) =
        [] := by
      apply nonWsKT_eq_nil
      intro u hu
      have := List.mem_takeWhile_imp hu
      simpa using this
    have hpost : nonWsKT (post.dropWhile (fun t => lexer_is_wspace t.ttype)) =
        nonWsKT post := by
      conv_rhs =>
        rw [← List.takeWhile_append_dropWhile
          (fun t => lexer_is_wspace t.ttype) post]
      rw [nonWsKT_append, h0]
      simp
    simp only [nonWsKT_append, nonWsKT_cons, hpost]

theorem nonWsKT_checker_prepend_wspace (toks : List Tok) (i : Nat)
    (ltt : Ltt) (txt : String) (h : lexer_is_wspace ltt) :
    nonWsKT (checker_prepend_wspace toks i ltt txt) = nonWsKT toks := by
  unfold checker_prepend_wspace
  cases hr : restOf toks i with
  | nil => rfl
  | cons a post =>
    conv_rhs => rw [← preOf_append_restOf toks i, hr]
    rw [nonWsKT_append, nonWsKT_append, nonWsKT_cons]
    simp [mkWsTok, h]

theorem idsOf_checker_prepend_wspace (toks : List Tok) (i : Nat)
    (ltt : Ltt) (txt : String) :
    idsOf (checker_prepend_wspace toks i ltt txt) = idsOf toks := by
  unfold checker_prepend_wspace
  cases hr : restOf toks i with
  | nil => rfl
  | cons a post =>
    conv_rhs => rw [← preOf_append_restOf toks i, hr]
    rw [idsOf_append, idsOf_append, idsOf_cons]
    simp [mkWsTok]

theorem nonWsKT_checker_append_wspace (toks : List Tok) (i : Nat)
    (ltt : Ltt) (txt : String) (h : lexer_is_wspace ltt) :
    nonWsKT (checker_append_wspace toks i ltt txt) = nonWsKT toks := by
  unfold checker_append_wspace
  cases hr : restOf toks i with
  | nil => rfl
  | cons tok post =>
    conv_rhs => rw [← preOf_append_restOf toks i, hr]
    rw [nonWsKT_append, nonWsKT_append, nonWsKT_cons, nonWsKT_cons,
      nonWsKT_cons]
    simp [mkWsTok, h]

theorem idsOf_checker_append_wspace (toks : List Tok) (i : Nat)
    (ltt : Ltt) (txt : String) :
    idsOf (checker_append_wspace toks i ltt txt) = idsOf toks := by
  unfold checker_append_wspace
  cases hr : restOf toks i with
  | nil => rfl
  | cons tok post =>
    conv_rhs => rw [← preOf_append_restOf toks i, hr]
    rw [idsOf_append, idsOf_append, idsOf_cons, idsOf_cons, idsOf_cons]
    simp [mkWsTok]

theorem nonWsKT_prependTabs (i : Nat) :
    ∀ (n : Nat) (toks : List Tok),
      nonWsKT (prependTabs toks i n) = nonWsKT toks := by
  intro n
  induction n with
  | zero => intro toks; rfl
  | succ n ih =>
    intro toks
    rw [prependTabs, ih, nonWsKT_checker_prepend_wspace]
    rfl

theorem idsOf_prependTabs (i : Nat) :
    ∀ (n : Nat) (toks : List Tok),
      idsOf (prependTabs toks i n) = idsOf toks := by
  intro n
  induction n with
  | zero => intro toks; rfl
  | succ n ih =>
    intro toks
    rw [prependTabs, ih, idsOf_checker_prepend_wspace]

theorem idsOf_checker_remove_ws_before (toks : List Tok) (i : Nat) :
    (idsOf (checker_remove_ws_before toks i)).Sublist (idsOf toks) :=
  idsOf_sublist (checker_remove_ws_before_sublist toks i)

theorem idsOf_checker_remove_ws_after (toks : List Tok) (i : Nat) :
    (idsOf (checker_remove_ws_after toks i)).Sublist (idsOf toks) :=
  idsOf_sublist (checker_remove_ws_after_sublist toks i)

/-! Effect of each spacing predicate on the state. -/

theorem pushDiag_toks (st : St) (s : String) : (pushDiag st s).toks = st.toks :=
  rfl

theorem pushDiagAt_toks (st : St) (i : Nat) (msg : String) :
    (pushDiagAt st i msg).toks = st.toks := by
  unfold pushDiagAt pushDiag
  split <;> rfl

theorem nonWsKT_setTokIndlvl (toks : List Tok) (i lvl : Nat) :
    nonWsKT (setTokIndlvl toks i lvl) = nonWsKT toks :=
  nonWsKT_eq_of_stripMeta (map_stripMeta_setTokIndlvl toks i lvl)

theorem nonWsKT_setTokLbegin (toks : List Tok) (i : Nat) :
    nonWsKT (setTokLbegin toks i) = nonWsKT toks :=
  nonWsKT_eq_of_stripMeta (map_stripMeta_setTokLbegin toks i)

theorem idsOf_setTokIndlvl (toks : List Tok) (i lvl : Nat) :
    idsOf (setTokIndlvl toks i lvl) = idsOf toks :=
  idsOf_eq_of_stripMeta (map_stripMeta_setTokIndlvl toks i lvl)

theorem idsOf_setTokLbegin (toks : List Tok) (i : Nat) :
    idsOf (setTokLbegin toks i) = idsOf toks :=
  idsOf_eq_of_stripMeta (map_stripMeta_setTokLbegin toks i)

/-- In check mode `checker_check_lbegin` only writes metadata. -/
theorem checker_check_lbegin_false_toks (lvl i : Nat) (msg : String) (st : St) :
    (checker_check_lbegin false lvl i msg st).toks =
      setTokLbegin (setTokIndlvl st.toks i lvl) i := by
  unfold checker_check_lbegin checker_check_any
  simp only [Bool.false_eq_true, if_false]
  split
  · rfl
  · exact pushDiagAt_toks _ _ _

/-- In check mode `checker_check_nows_before` only writes metadata. -/
theorem checker_check_nows_before_false_toks (lvl i : Nat) (msg : String)
    (st : St) :
    (checker_check_nows_before false lvl i msg st).toks =
      setTokIndlvl st.toks i lvl := by
  unfold checker_check_nows_before checker_check_any
  simp only [Bool.false_eq_true, if_false]
  split
  · rfl
  · split <;> rfl

/-- In check mode `checker_check_nows_after` only writes metadata. -/
theorem checker_check_nows_after_false_toks (lvl i : Nat) (msg : String)
    (st : St) :
    (checker_check_nows_after false lvl i msg st).toks =
      setTokIndlvl st.toks i lvl := by
  unfold checker_check_nows_after checker_check_any
  simp only [Bool.false_eq_true, if_false]
  split
  · rfl
  · split <;> rfl

/-- In check mode `checker_check_nsbrk_after` only writes metadata. -/
theorem checker_check_nsbrk_after_false_toks (lvl i : Nat) (msg : String)
    (st : St) :
    (checker_check_nsbrk_after false lvl i msg st).toks =
      setTokIndlvl st.toks i lvl := by
  unfold checker_check_nsbrk_after checker_check_any
  simp only [Bool.false_eq_true, if_false]
  split
  · rfl
  · split <;> rfl

/-- In check mode `checker_check_brkspace_before` only writes metadata. -/
theorem checker_check_brkspace_before_false_toks (lvl i : Nat) (msg : String)
    (st : St) :
    (checker_check_brkspace_before false lvl i msg st).toks =
      setTokIndlvl st.toks i lvl := by
  unfold checker_check_brkspace_before checker_check_any
  simp only [Bool.false_eq_true, if_false]
  split
  · rfl
  · split <;> rfl

/-- In check mode `checker_check_brkspace_after` only writes metadata. -/
theorem checker_check_brkspace_after_false_toks (lvl i : Nat) (msg : String)
    (st : St) :
    (checker_check_brkspace_after false lvl i msg st).toks =
      setTokIndlvl st.toks i lvl := by
  unfold checker_check_brkspace_after checker_check_any
  simp only [Bool.false_eq_true, if_false]
  split
  · rfl
  · split <;> rfl

/-- In check mode `checker_check_nbspace_before` only writes metadata. -/
theorem checker_check_nbspace_before_false_toks (lvl i : Nat) (msg : String)
    (st : St) :
    (checker_check_nbspace_before false lvl i msg st).toks =
      setTokIndlvl st.toks i lvl := by
  unfold checker_check_nbspace_before checker_check_any
  simp only [Bool.false_eq_true, if_false]
  split
  · rfl
  · split <;> rfl

/-- In check mode every spacing predicate preserves everything but the
metadata fields. -/
theorem ckExec_false_stripMeta (c : Ck) (st : St) :
    ((ckExec false st c).toks).map stripMeta = st.toks.map stripMeta := by
  cases c with
  | any lvl i => exact map_stripMeta_setTokIndlvl st.toks i lvl
  | lbegin lvl i msg =>
    rw [ckExec, checker_check_lbegin_false_toks,
      map_stripMeta_setTokLbegin, map_stripMeta_setTokIndlvl]
  | nowsBefore lvl i msg =>
    rw [ckExec, checker_check_nows_before_false_toks,
      map_stripMeta_setTokIndlvl]
  | nowsAfter lvl i msg =>
    rw [ckExec, checker_check_nows_after_false_toks,
      map_stripMeta_setTokIndlvl]
  | nsbrkAfter lvl i msg =>
    rw [ckExec, checker_check_nsbrk_after_false_toks,
      map_stripMeta_setTokIndlvl]
  | brkspaceBefore lvl i msg =>
    rw [ckExec, checker_check_brkspace_before_false_toks,
      map_stripMeta_setTokIndlvl]
  | brkspaceAfter lvl i msg =>
    rw [ckExec, checker_check_brkspace_after_false_toks,
      map_stripMeta_setTokIndlvl]
  | nbspaceBefore lvl i msg =>
    rw [ckExec, checker_check_nbspace_before_false_toks,
      map_stripMeta_setTokIndlvl]

theorem checker_remove_ws_before_absent (toks : List Tok) (i : Nat)
    (h : restOf toks i = []) : checker_remove_ws_before toks i = toks := by
  unfold checker_remove_ws_before
  rw [h]

theorem checker_prepend_wspace_absent (toks : List Tok) (i : Nat)
    (ltt : Ltt) (txt : String) (h : restOf toks i = []) :
    checker_prepend_wspace toks i ltt txt = toks := by
  unfold checker_prepend_wspace
  rw [h]

theorem prependTabs_absent (toks : List Tok) (i : Nat)
    (h : restOf toks i = []) : ∀ n, prependTabs toks i n = toks := by
  intro n
  induction n with
  | zero => rfl
  | succ n ih =>
    rw [prependTabs, checker_prepend_wspace_absent toks i _ _ h, ih]

/-- Diagnostics are only ever appended by a spacing predicate. -/
theorem ckExec_diags_mono (b : Bool) (c : Ck) (st : St) :
    ∃ d, (ckExec b st c).diags = st.diags ++ d := by
  cases c <;>
    simp only [ckExec, checker_check_any, checker_check_lbegin,
      checker_check_nows_before, checker_check_nows_after,
      checker_check_nsbrk_after, checker_check_brkspace_before,
      checker_check_brkspace_after, checker_check_nbspace_before,
      pushDiagAt, pushDiag] <;>
    (repeat' split) <;>
    first
      | exact ⟨_, rfl⟩
      | exact ⟨[], (List.append_nil _).symm⟩

/-- In fix mode every spacing predicate preserves the non-whitespace
subsequence: it only inserts or removes whitespace tokens. -/
theorem ckExec_true_nonWs (c : Ck) (st : St) :
    nonWsKT (ckExec true st c).toks = nonWsKT st.toks := by
  cases c <;>
    simp only [ckExec, checker_check_any, checker_check_lbegin,
      checker_check_nows_before, checker_check_nows_after,
      checker_check_nsbrk_after, checker_check_brkspace_before,
      checker_check_brkspace_after, checker_check_nbspace_before,
      if_true] <;>
    (repeat' split) <;>
    simp [nonWsKT_setTokIndlvl, nonWsKT_setTokLbegin,
      nonWsKT_checker_remove_ws_before, nonWsKT_checker_remove_ws_after,
      nonWsKT_checker_prepend_wspace, nonWsKT_checker_append_wspace,
      nonWsKT_prependTabs, lexer_is_wspace]

/-- Every spacing predicate, in either mode, keeps the surviving original
tokens in their original relative order. -/
theorem ckExec_ids (b : Bool) (c : Ck) (st : St) :
    (idsOf (ckExec b st c).toks).Sublist (idsOf st.toks) := by
  cases b with
  | false =>
    rw [idsOf_eq_of_stripMeta (ckExec_false_stripMeta c st)]
  | true =>
    cases c with
    | any lvl i =>
      rw [show (ckExec true st (.any lvl i)).toks =
        setTokIndlvl st.toks i lvl from rfl, idsOf_setTokIndlvl]
    | lbegin lvl i msg =>
      simp only [ckExec, checker_check_lbegin, checker_check_any, if_true]
      split
      · rw [idsOf_setTokLbegin, idsOf_setTokIndlvl]
      · rw [idsOf_prependTabs, idsOf_checker_prepend_wspace]
        have h := idsOf_checker_remove_ws_before
          (setTokLbegin (setTokIndlvl st.toks i lvl) i) i
        rw [idsOf_setTokLbegin, idsOf_setTokIndlvl] at h
        exact h
    | nowsBefore lvl i msg =>
      simp only [ckExec, checker_check_nows_before, checker_check_any, if_true]
      split
      · rw [idsOf_setTokIndlvl]
      · split
        · have h := idsOf_checker_remove_ws_before
            (setTokIndlvl st.toks i lvl) i
          rw [idsOf_setTokIndlvl] at h
          exact h
        · rw [idsOf_setTokIndlvl]
    | nowsAfter lvl i msg =>
      simp only [ckExec, checker_check_nows_after, checker_check_any, if_true]
      split
      · rw [idsOf_setTokIndlvl]
      · split
        · have h := idsOf_checker_remove_ws_after
            (setTokIndlvl st.toks i lvl) i
          rw [idsOf_setTokIndlvl] at h
          exact h
        · rw [idsOf_setTokIndlvl]
    | nsbrkAfter lvl i msg =>
      simp only [ckExec, checker_check_nsbrk_after, checker_check_any, if_true]
      split
      · rw [idsOf_setTokIndlvl]
      · split
        · have h := idsOf_checker_remove_ws_after
            (setTokIndlvl st.toks i lvl) i
          rw [idsOf_setTokIndlvl] at h
          exact h
        · rw [idsOf_setTokIndlvl]
    | brkspaceBefore lvl i msg =>
      simp only [ckExec, checker_check_brkspace_before, checker_check_any,
        if_true]
      split
      · rw [idsOf_setTokIndlvl]
      · split
        · rw [idsOf_checker_prepend_wspace, idsOf_setTokIndlvl]
        · rw [idsOf_setTokIndlvl]
    | brkspaceAfter lvl i msg =>
      simp only [ckExec, checker_check_brkspace_after, checker_check_any,
        if_true]
      split
      · rw [idsOf_setTokIndlvl]
      · split
        · rw [idsOf_checker_append_wspace, idsOf_setTokIndlvl]
        · rw [idsOf_setTokIndlvl]
    | nbspaceBefore lvl i msg =>
      simp only [ckExec, checker_check_nbspace_before, checker_check_any,
        if_true]
      split
      · rw [idsOf_setTokIndlvl]
      · split
        · rw [idsOf_checker_prepend_wspace]
          have h := idsOf_checker_remove_ws_before
            (setTokIndlvl st.toks i lvl) i
          rw [idsOf_setTokIndlvl] at h
          exact h
        · rw [idsOf_setTokIndlvl]

/-- A spacing predicate whose check-mode run prints nothing does, in fix
mode, exactly what the check-mode run does: the trigger condition is the
same in both modes, and a silent check means it did not hold. -/
theorem ckExec_fix_of_clean (c : Ck) (st : St)
    (h : (ckExec false st c).diags = st.diags) :
    ckExec true st c = ckExec false st c := by
  cases c with
  | any lvl i => rfl
  | lbegin lvl i msg =>
    simp only [ckExec, checker_check_lbegin, checker_check_any,
      Bool.false_eq_true, if_false, if_true] at h ⊢
    by_cases hl : checker_is_tok_lbegin
        (setTokLbegin (setTokIndlvl st.toks i lvl) i) i = true
    · simp only [hl, if_true]
    · rw [if_neg hl] at h ⊢
      cases hr : restOf (setTokLbegin (setTokIndlvl st.toks i lvl) i) i with
      | nil =>
        have hpd : pushDiagAt
            { toks := setTokLbegin (setTokIndlvl st.toks i lvl) i,
              diags := st.diags } i msg =
            { toks := setTokLbegin (setTokIndlvl st.toks i lvl) i,
              diags := st.diags } := by
          unfold pushDiagAt getTok
          rw [hr]
          rfl
        rw [hpd, checker_remove_ws_before_absent _ _ hr,
          checker_prepend_wspace_absent _ _ _ _ hr,
          prependTabs_absent _ _ hr]
        simp only [ite_self]
      | cons a rest =>
        have hpd : (pushDiagAt
            { toks := setTokLbegin (setTokIndlvl st.toks i lvl) i,
              diags := st.diags } i msg).diags =
            st.diags ++ [diagLine a msg] := by
          unfold pushDiagAt getTok
          rw [hr]
          rfl
        rw [hpd] at h
        simp at h
  | nowsBefore lvl i msg =>
    simp only [ckExec, checker_check_nows_before, checker_check_any,
      Bool.false_eq_true, if_false, if_true] at h ⊢
    cases hp : checker_prev_tok (setTokIndlvl st.toks i lvl) i with
    | none => simp only [hp]
    | some p =>
      simp only [hp] at h ⊢
      by_cases hw : lexer_is_wspace p.ttype = true
      · rw [if_pos hw] at h
        simp [pushDiag] at h
      · rw [if_neg hw, if_neg hw]
  | nowsAfter lvl i msg =>
    simp only [ckExec, checker_check_nows_after, checker_check_any,
      Bool.false_eq_true, if_false, if_true] at h ⊢
    cases hp : checker_next_tok (setTokIndlvl st.toks i lvl) i with
    | none => simp only [hp]
    | some p =>
      simp only [hp] at h ⊢
      by_cases hw : lexer_is_wspace p.ttype = true
      · rw [if_pos hw] at h
        simp [pushDiag] at h
      · rw [if_neg hw, if_neg hw]
  | nsbrkAfter lvl i msg =>
    simp only [ckExec, checker_check_nsbrk_after, checker_check_any,
      Bool.false_eq_true, if_false, if_true] at h ⊢
    cases hp : checker_next_tok (setTokIndlvl st.toks i lvl) i with
    | none => simp only [hp]
    | some p =>
      simp only [hp] at h ⊢
      by_cases hw : (lexer_is_wspace p.ttype &&
          decide (p.ttype ≠ Ltt.newline)) = true
      · rw [if_pos hw] at h
        simp [pushDiag] at h
      · rw [if_neg hw, if_neg hw]
  | brkspaceBefore lvl i msg =>
    simp only [ckExec, checker_check_brkspace_before, checker_check_any,
      Bool.false_eq_true, if_false, if_true] at h ⊢
    cases hp : checker_prev_tok (setTokIndlvl st.toks i lvl) i with
    | none => simp only [hp]
    | some p =>
      simp only [hp] at h ⊢
      by_cases hw : ¬ lexer_is_wspace p.ttype = true
      · rw [if_pos hw] at h
        simp [pushDiag] at h
      · rw [if_neg hw, if_neg hw]
  | brkspaceAfter lvl i msg =>
    simp only [ckExec, checker_check_brkspace_after, checker_check_any,
      Bool.false_eq_true, if_false, if_true] at h ⊢
    cases hp : checker_next_tok (setTokIndlvl st.toks i lvl) i with
    | none => simp only [hp]
    | some p =>
      simp only [hp] at h ⊢
      by_cases hw : ¬ lexer_is_wspace p.ttype = true
      · rw [if_pos hw] at h
        simp [pushDiag] at h
      · rw [if_neg hw, if_neg hw]
  | nbspaceBefore lvl i msg =>
    simp only [ckExec, checker_check_nbspace_before, checker_check_any,
      Bool.false_eq_true, if_false, if_true] at h ⊢
    cases hp : checker_prev_tok (setTokIndlvl st.toks i lvl) i with
    | none => simp only [hp]
    | some p =>
      simp only [hp] at h ⊢
      by_cases hw : (decide (¬ lexer_is_wspace p.ttype = true) ||
          checker_is_tok_lbegin (setTokIndlvl st.toks i lvl) i) = true
      · rw [if_pos hw] at h
        simp [pushDiag] at h
      · rw [if_neg hw, if_neg hw]

/-- In check mode the whole AST walk preserves everything but the
metadata fields. -/
theorem ckRun_false_stripMeta (cks : List Ck) :
    ∀ st : St, ((ckRun false cks st).toks).map stripMeta =
      st.toks.map stripMeta := by
  induction cks with
  | nil => intro st; rfl
  | cons c rest ih =>
    intro st
    rw [ckRun, List.foldl_cons]
    have h1 := ckExec_false_stripMeta c st
    have h2 := ih (ckExec false st c)
    rw [ckRun] at h2
    exact h2.trans h1

/-- Diagnostics are only appended along the AST walk. -/
theorem ckRun_diags_mono (b : Bool) (cks : List Ck) :
    ∀ st : St, ∃ d, (ckRun b cks st).diags = st.diags ++ d := by
  induction cks with
  | nil => intro st; exact ⟨[], (List.append_nil _).symm⟩
  | cons c rest ih =>
    intro st
    obtain ⟨d1, h1⟩ := ckExec_diags_mono b c st
    obtain ⟨d2, h2⟩ := ih (ckExec b st c)
    refine ⟨d1 ++ d2, ?_⟩
    rw [ckRun, List.foldl_cons]
    rw [ckRun] at h2
    rw [h2, h1, List.append_assoc]

/-- An AST walk that prints nothing in check mode does the same thing in
fix mode. -/
theorem ckRun_fix_of_clean (cks : List Ck) :
    ∀ st : St, (ckRun false cks st).diags = st.diags →
      ckRun true cks st = ckRun false cks st := by
  induction cks with
  | nil => intro st h; rfl
  | cons c rest ih =>
    intro st h
    rw [ckRun, List.foldl_cons] at h
    obtain ⟨d1, h1⟩ := ckExec_diags_mono false c st
    obtain ⟨d2, h2⟩ := ckRun_diags_mono false rest (ckExec false st c)
    rw [ckRun] at h2
    rw [h2, h1, List.append_assoc] at h
    have hnil : d1 ++ d2 = [] := by
      have := List.append_right_eq_self.mp h
      exact this
    obtain ⟨hd1, hd2⟩ := List.append_eq_nil.mp hnil
    have hclean1 : (ckExec false st c).diags = st.diags := by
      rw [h1, hd1, List.append_nil]
    have hstep := ckExec_fix_of_clean c st hclean1
    rw [ckRun, List.foldl_cons, ckRun, List.foldl_cons, hstep]
    apply ih
    rw [ckRun, h2, hd2, List.append_nil]

/-- In fix mode the AST walk preserves the non-whitespace subsequence. -/
theorem ckRun_true_nonWs (cks : List Ck) :
    ∀ st : St, nonWsKT (ckRun true cks st).toks = nonWsKT st.toks := by
  induction cks with
  | nil => intro st; rfl
  | cons c rest ih =>
    intro st
    rw [ckRun, List.foldl_cons]
    have h2 := ih (ckExec true st c)
    rw [ckRun] at h2
    exact h2.trans (ckExec_true_nonWs c st)

/-- In either mode the AST walk keeps surviving original tokens in their
original relative order. -/
theorem ckRun_ids (b : Bool) (cks : List Ck) :
    ∀ st : St, (idsOf (ckRun b cks st).toks).Sublist (idsOf st.toks) := by
  induction cks with
  | nil => intro st; exact List.Sublist.refl _
  | cons c rest ih =>
    intro st
    rw [ckRun, List.foldl_cons]
    have h2 := ih (ckExec b st c)
    rw [ckRun] at h2
    exact h2.trans (ckExec_ids b c st)

/-! Properties of the line-indentation check. -/

theorem stripMeta_lineTokAdj (tok : Tok) :
    stripMeta (lineTokAdj tok) = stripMeta tok := by
  unfold lineTokAdj
  split <;> rfl

theorem lineTokAdj_ttype (tok : Tok) : (lineTokAdj tok).ttype = tok.ttype := by
  unfold lineTokAdj
  split <;> rfl

/-- The token handed on by the line-indent check does not depend on the
mode. -/
theorem checker_check_line_indent_tok (fix : Bool) (tabs spaces extra : Nat)
    (pref : List Tok) (tok : Tok) :
    (checker_check_line_indent fix tabs spaces extra pref tok).tok =
      (checker_check_line_indent false tabs spaces extra pref tok).tok := by
  simp only [checker_check_line_indent]
  split <;> rfl

/-- The line-indent check writes at most the `lbegin` field of its token. -/
theorem checker_check_line_indent_tok_strip (fix : Bool)
    (tabs spaces extra : Nat) (pref : List Tok) (tok : Tok) :
    stripMeta (checker_check_line_indent fix tabs spaces extra pref tok).tok =
      stripMeta tok := by
  simp only [checker_check_line_indent]
  split
  · rfl
  · exact stripMeta_lineTokAdj tok

/-- In check mode the line prefix is left alone. -/
theorem checker_check_line_indent_false_pref (tabs spaces extra : Nat)
    (pref : List Tok) (tok : Tok) :
    (checker_check_line_indent false tabs spaces extra pref tok).pref =
      pref := by
  simp only [checker_check_line_indent]
  split
  · rfl
  · simp

/-- In fix mode the line-indent check prints nothing. -/
theorem checker_check_line_indent_true_diags (tabs spaces extra : Nat)
    (pref : List Tok) (tok : Tok) :
    (checker_check_line_indent true tabs spaces extra pref tok).diags =
      [] := by
  simp only [checker_check_line_indent]
  split
  · rfl
  · simp

theorem if_list_eq_nil {c : Prop} [Decidable c] {x : String}
    (h : (if c then [x] else []) = []) : ¬ c := by
  intro hc
  rw [if_pos hc] at h
  simp at h

/-- A line whose check-mode indent check prints nothing is also left
alone by the fix-mode check. -/
theorem checker_check_line_indent_fix_of_clean (tabs spaces extra : Nat)
    (pref : List Tok) (tok : Tok)
    (h : (checker_check_line_indent false tabs spaces extra pref tok).diags =
      []) :
    checker_check_line_indent true tabs spaces extra pref tok =
      checker_check_line_indent false tabs spaces extra pref tok := by
  simp only [checker_check_line_indent] at h ⊢
  by_cases he : (lexer_is_wspace tok.ttype ||
      decide (tok.ttype = Ltt.comment) ||
      decide (tok.ttype = Ltt.dscomment)) = true
  · rw [if_pos he, if_pos he]
  · rw [if_neg he] at h
    rw [if_neg he, if_neg he]
    simp only [Bool.not_false, Bool.and_true, Bool.not_true, Bool.and_false,
      Bool.false_eq_true, if_false, Bool.false_and, Bool.true_and] at h ⊢
    obtain ⟨h1234, h5⟩ := List.append_eq_nil.mp h
    obtain ⟨h123, h4⟩ := List.append_eq_nil.mp h1234
    obtain ⟨h12, h3⟩ := List.append_eq_nil.mp h123
    obtain ⟨h1, h2⟩ := List.append_eq_nil.mp h12
    have hc1 := if_list_eq_nil h1
    have hc2 := if_list_eq_nil h2
    have hc3 := if_list_eq_nil h3
    have hc4 := if_list_eq_nil h4
    have hc5 := if_list_eq_nil h5
    simp only [Bool.not_eq_true] at hc1 hc2 hc3 hc4 hc5
    simp [hc1, hc2, hc3, hc4, hc5]

/-- The repaired line prefix is either the original one or a fresh
all-whitespace run of fixer-manufactured tokens. -/
theorem checker_check_line_indent_pref_cases (fix : Bool)
    (tabs spaces extra : Nat) (pref : List Tok) (tok : Tok) :
    (checker_check_line_indent fix tabs spaces extra pref tok).pref = pref ∨
    (∀ t ∈ (checker_check_line_indent fix tabs spaces extra pref tok).pref,
      t.id = 0 ∧ lexer_is_wspace t.ttype) := by
  simp only [checker_check_line_indent]
  split
  · left
    rfl
  · split
    · right
      intro t ht
      rcases List.mem_append.mp ht with h1 | h2
      · rw [List.eq_of_mem_replicate h1]
        exact ⟨rfl, rfl⟩
      · revert h2
        split
        · intro h2
          rw [List.eq_of_mem_replicate h2]
          exact ⟨rfl, rfl⟩
        · intro h2
          exact absurd h2 (List.not_mem_nil t)
    · left
      rfl

theorem idsOf_eq_nil (l : List Tok) (h : ∀ t ∈ l, t.id = 0) :
    idsOf l = [] := by
  induction l with
  | nil => rfl
  | cons t ts ih =>
    rw [idsOf_cons]
    have := h t (List.mem_cons_self t ts)
    simp only [this, if_true]
    exact ih (fun u hu => h u (List.mem_cons_of_mem _ hu))

/-! Properties of one line-loop iteration. -/

theorem lineSplit_append (l : List Tok) :
    (lineSplit l).tabsRun ++ (lineSplit l).spacesRun ++ (lineSplit l).extraRun
      ++ (lineSplit l).rest = l := by
  simp only [lineSplit]
  rw [List.append_assoc, List.append_assoc,
    List.takeWhile_append_dropWhile, List.takeWhile_append_dropWhile,
    List.takeWhile_append_dropWhile]

theorem lineSplit_pref_ws (l : List Tok) :
    ∀ t ∈ (lineSplit l).tabsRun ++ (lineSplit l).spacesRun ++
      (lineSplit l).extraRun, lexer_is_wspace t.ttype := by
  intro t ht
  rcases List.mem_append.mp ht with h12 | h3
  · rcases List.mem_append.mp h12 with h1 | h2
    · have := List.mem_takeWhile_imp h1
      have htt : t.ttype = Ltt.tab := by simpa using this
      rw [htt]
      rfl
    · have := List.mem_takeWhile_imp h2
      have htt : t.ttype = Ltt.space := by simpa using this
      rw [htt]
      rfl
  · have := List.mem_takeWhile_imp h3
    have htt : t.ttype = Ltt.space ∨ t.ttype = Ltt.tab := by
      simpa using this
    rcases htt with htt | htt <;> (rw [htt]; rfl)

theorem eolSplit_append (l : List Tok) :
    (eolSplit l).scanned ++ (eolSplit l).rest = l :=
  List.takeWhile_append_dropWhile _ _

/-- Joining the pieces back up: the map of `stripMeta` over a processed
line equals the map over the unprocessed one. -/
theorem map_strip_line (pref scanned tail r4 : List Tok) (t tok : Tok)
    (heo : scanned ++ tail = t :: r4) (hts : stripMeta t = stripMeta tok) :
    (pref ++ scanned ++ tail).map stripMeta =
      (pref ++ tok :: r4).map stripMeta := by
  have hm : (scanned ++ tail).map stripMeta =
      stripMeta tok :: r4.map stripMeta := by
    rw [heo, List.map_cons, hts]
  rw [List.append_assoc, List.map_append, hm, List.map_append, List.map_cons]

/-- In check mode one line iteration preserves everything but metadata:
the processed line followed by the remainder strips to the input. -/
theorem processLine_false_strip (rest : List Tok) :
    ((processLine false rest).1 ++ (processLine false rest).2.2).map stripMeta
      = rest.map stripMeta := by
  have happ := lineSplit_append rest
  rcases hsp : lineSplit rest with ⟨tabsR, spacesR, extraR, r3⟩
  rw [hsp] at happ
  simp only [processLine, hsp]
  cases r3 with
  | nil =>
    simp only at happ ⊢
    rw [List.append_nil] at happ
    rw [List.append_nil, happ]
  | cons tok r4 =>
    simp only at happ ⊢
    rcases hli : checker_check_line_indent false tabsR.length spacesR.length
        extraR.length (tabsR ++ spacesR ++ extraR) tok with ⟨pref2, tok2, ds1⟩
    have hpref : pref2 = tabsR ++ spacesR ++ extraR := by
      have h0 := checker_check_line_indent_false_pref tabsR.length
        spacesR.length extraR.length (tabsR ++ spacesR ++ extraR) tok
      rw [hli] at h0
      exact h0
    have hts : stripMeta tok2 = stripMeta tok := by
      have h0 := checker_check_line_indent_tok_strip false tabsR.length
        spacesR.length extraR.length (tabsR ++ spacesR ++ extraR) tok
      rw [hli] at h0
      exact h0
    simp only [hli]
    rcases heq : eolSplit (tok2 :: r4) with ⟨scanned, r5⟩
    have heo := eolSplit_append (tok2 :: r4)
    rw [heq] at heo
    simp only at heo
    simp only [heq]
    cases r5 with
    | nil =>
      simp only
      have hm := map_strip_line (tabsR ++ spacesR ++ extraR) scanned [] r4
        tok2 tok heo hts
      rw [List.append_nil] at hm
      rw [List.append_nil, hpref, hm, happ]
    | cons tokEnd r6 =>
      simp only [Bool.and_false, Bool.false_eq_true, if_false]
      by_cases heof : tokEnd.ttype = Ltt.eof
      · rw [if_pos heof]
        simp only
        rw [List.append_nil, hpref,
          map_strip_line (tabsR ++ spacesR ++ extraR) scanned (tokEnd :: r6)
            r4 tok2 tok heo hts,
          happ]
      · rw [if_neg heof]
        simp only
        rw [List.append_assoc (pref2 ++ scanned) [tokEnd] r6,
          List.singleton_append, hpref,
          map_strip_line (tabsR ++ spacesR ++ extraR) scanned (tokEnd :: r6)
            r4 tok2 tok heo hts,
          happ]

/-- When one line iteration in check mode prints nothing, the fix-mode
iteration performs no change: both modes agree entirely. -/
theorem processLine_fix_of_clean (rest : List Tok)
    (h : (processLine false rest).2.1 = []) :
    processLine true rest = processLine false rest := by
  rcases hsp : lineSplit rest with ⟨tabsR, spacesR, extraR, r3⟩
  simp only [processLine, hsp] at h ⊢
  cases r3 with
  | nil => rfl
  | cons tok r4 =>
    simp only at h ⊢
    rcases hli : checker_check_line_indent false tabsR.length spacesR.length
        extraR.length (tabsR ++ spacesR ++ extraR) tok with ⟨pref2, tok2, ds1⟩
    simp only [hli] at h ⊢
    rcases heq : eolSplit (tok2 :: r4) with ⟨scanned, r5⟩
    simp only [heq] at h ⊢
    cases r5 with
    | nil =>
      simp only at h ⊢
      have hfix := checker_check_line_indent_fix_of_clean tabsR.length
        spacesR.length extraR.length (tabsR ++ spacesR ++ extraR) tok
        (by rw [hli]; exact h)
      rw [hli] at hfix
      rw [hfix]
      simp only [heq]
    | cons tokEnd r6 =>
      simp only [Bool.not_false, Bool.and_true, Bool.and_false,
        Bool.false_eq_true, if_false] at h ⊢
      have hsplit : ds1 = [] ∧
          (if ((eolFlags scanned).1 && (eolFlags scanned).2) = true then
            [diagLine tokEnd "Whitespace at end of line"] else []) = [] ∧
          (if tokEnd.bpos.col > 1 + line_length_limit then
            [diagLine tokEnd ("Line too long (" ++
              toString (tokEnd.bpos.col - line_length_limit - 1) ++
              " characters above " ++ toString line_length_limit ++
              " character limit)")] else []) = [] := by
        by_cases heof : tokEnd.ttype = Ltt.eof
        · rw [if_pos heof] at h
          simp only at h
          have h3 := List.append_eq_nil.mp h
          have h12 := List.append_eq_nil.mp h3.1
          exact ⟨h12.1, h12.2, h3.2⟩
        · rw [if_neg heof] at h
          simp only at h
          have h3 := List.append_eq_nil.mp h
          have h12 := List.append_eq_nil.mp h3.1
          exact ⟨h12.1, h12.2, h3.2⟩
      obtain ⟨hclean, hd2, _⟩ := hsplit
      have hflags : ((eolFlags scanned).1 && (eolFlags scanned).2) = false := by
        by_cases hc : ((eolFlags scanned).1 && (eolFlags scanned).2) = true
        · rw [if_pos hc] at hd2
          exact absurd hd2 (by simp)
        · exact Bool.not_eq_true _ |>.mp hc
      have hfix := checker_check_line_indent_fix_of_clean tabsR.length
        spacesR.length extraR.length (tabsR ++ spacesR ++ extraR) tok
        (by rw [hli]; exact hclean)
      rw [hli] at hfix
      rw [hfix]
      simp only [heq]
      simp only [hflags, Bool.false_and, Bool.false_eq_true, if_false, hclean]

/-- One fix-mode line iteration preserves the non-whitespace tokens: the
processed line followed by the remainder has the same non-whitespace
kind/text subsequence as the input. -/
theorem processLine_true_nonWs (rest : List Tok) :
    nonWsKT ((processLine true rest).1 ++ (processLine true rest).2.2) =
      nonWsKT rest := by
  have happ := lineSplit_append rest
  have hw := lineSplit_pref_ws rest
  rcases hsp : lineSplit rest with ⟨tabsR, spacesR, extraR, r3⟩
  rw [hsp] at happ hw
  simp only at happ hw
  simp only [processLine, hsp]
  cases r3 with
  | nil =>
    simp only
    rw [List.append_nil] at happ
    rw [List.append_nil, happ]
  | cons tok r4 =>
    simp only
    rcases hli : checker_check_line_indent true tabsR.length spacesR.length
        extraR.length (tabsR ++ spacesR ++ extraR) tok with ⟨pref2, tok2, ds1⟩
    have hnp : nonWsKT pref2 = [] := by
      rcases checker_check_line_indent_pref_cases true tabsR.length
          spacesR.length extraR.length (tabsR ++ spacesR ++ extraR) tok with
        hc1 | hc2
      · rw [hli] at hc1
        simp only at hc1
        rw [hc1]
        exact nonWsKT_eq_nil _ hw
      · rw [hli] at hc2
        simp only at hc2
        exact nonWsKT_eq_nil _ (fun t ht => (hc2 t ht).2)
    have hts : stripMeta tok2 = stripMeta tok := by
      have h0 := checker_check_line_indent_tok_strip true tabsR.length
        spacesR.length extraR.length (tabsR ++ spacesR ++ extraR) tok
      rw [hli] at h0
      exact h0
    have hx : nonWsKT (tok2 :: r4) = nonWsKT (tok :: r4) :=
      nonWsKT_eq_of_stripMeta (by simp [hts])
    have hrest : nonWsKT rest = nonWsKT (tok :: r4) := by
      rw [← happ, nonWsKT_append, nonWsKT_append, nonWsKT_append,
        nonWsKT_eq_nil tabsR (fun t ht => hw t (by simp [ht])),
        nonWsKT_eq_nil spacesR (fun t ht => hw t (by simp [ht])),
        nonWsKT_eq_nil extraR (fun t ht => hw t (by simp [ht]))]
      simp
    simp only [hli]
    rcases heq : eolSplit (tok2 :: r4) with ⟨scanned, r5⟩
    have heo := eolSplit_append (tok2 :: r4)
    rw [heq] at heo
    simp only at heo
    simp only [heq]
    cases r5 with
    | nil =>
      simp only
      rw [List.append_nil] at heo
      rw [List.append_nil, nonWsKT_append, hnp, List.nil_append, heo, hx,
        hrest]
    | cons tokEnd r6 =>
      simp only [Bool.and_true]
      have hsc : nonWsKT scanned ++ nonWsKT (tokEnd :: r6) =
          nonWsKT (tok :: r4) := by
        rw [← nonWsKT_append, heo, hx]
      have hs2 : nonWsKT (if ((eolFlags scanned).1 && (eolFlags scanned).2)
            = true then dropTrailWs scanned else scanned) =
          nonWsKT scanned := by
        split
        · exact nonWsKT_dropTrailWs scanned
        · rfl
      by_cases heof : tokEnd.ttype = Ltt.eof
      · rw [if_pos heof]
        simp only
        rw [List.append_nil, List.append_assoc, nonWsKT_append, hnp,
          List.nil_append, nonWsKT_append, hs2, hsc, hrest]
      · rw [if_neg heof]
        simp only
        rw [List.append_assoc, List.append_assoc, nonWsKT_append, hnp,
          List.nil_append, nonWsKT_append, hs2, List.singleton_append,
          hsc, hrest]

/-- One line iteration keeps original token ids as a subsequence of the
input's ids: repairs only drop or replace whitespace (replacements carry
id 0). -/
theorem processLine_ids (b : Bool) (rest : List Tok) :
    (idsOf ((processLine b rest).1 ++ (processLine b rest).2.2)).Sublist
      (idsOf rest) := by
  cases b with
  | false =>
    rw [idsOf_eq_of_stripMeta (processLine_false_strip rest)]
  | true =>
    have happ := lineSplit_append rest
    rcases hsp : lineSplit rest with ⟨tabsR, spacesR, extraR, r3⟩
    rw [hsp] at happ
    simp only at happ
    simp only [processLine, hsp]
    cases r3 with
    | nil =>
      simp only
      rw [List.append_nil] at happ
      rw [List.append_nil, happ]
    | cons tok r4 =>
      simp only
      rcases hli : checker_check_line_indent true tabsR.length spacesR.length
          extraR.length (tabsR ++ spacesR ++ extraR) tok with ⟨pref2, tok2, ds1⟩
      have hpi : (idsOf pref2).Sublist (idsOf (tabsR ++ spacesR ++ extraR)) := by
        rcases checker_check_line_indent_pref_cases true tabsR.length
            spacesR.length extraR.length (tabsR ++ spacesR ++ extraR) tok with
          hc1 | hc2
        · rw [hli] at hc1
          simp only at hc1
          rw [hc1]
        · rw [hli] at hc2
          simp only at hc2
          rw [idsOf_eq_nil _ (fun t ht => (hc2 t ht).1)]
          exact List.nil_sublist _
      have hts : stripMeta tok2 = stripMeta tok := by
        have h0 := checker_check_line_indent_tok_strip true tabsR.length
          spacesR.length extraR.length (tabsR ++ spacesR ++ extraR) tok
        rw [hli] at h0
        exact h0
      have hx : idsOf (tok2 :: r4) = idsOf (tok :: r4) :=
        idsOf_eq_of_stripMeta (by simp [hts])
      have hrest : idsOf rest = idsOf (tabsR ++ spacesR ++ extraR) ++
          idsOf (tok :: r4) := by
        rw [← happ, idsOf_append]
      simp only [hli]
      rcases heq : eolSplit (tok2 :: r4) with ⟨scanned, r5⟩
      have heo := eolSplit_append (tok2 :: r4)
      rw [heq] at heo
      simp only at heo
      simp only [heq]
      cases r5 with
      | nil =>
        simp only
        rw [List.append_nil] at heo
        rw [List.append_nil, idsOf_append, heo, hx, hrest]
        exact List.Sublist.append hpi (List.Sublist.refl _)
      | cons tokEnd r6 =>
        simp only [Bool.and_true]
        have hsc : idsOf scanned ++ idsOf (tokEnd :: r6) =
            idsOf (tok :: r4) := by
          rw [← idsOf_append, heo, hx]
        have hs2 : (idsOf (if ((eolFlags scanned).1 && (eolFlags scanned).2)
              = true then dropTrailWs scanned else scanned)).Sublist
            (idsOf scanned) := by
          split
          · exact idsOf_sublist (dropTrailWs_sublist scanned)
          · exact List.Sublist.refl _
        by_cases heof : tokEnd.ttype = Ltt.eof
        · rw [if_pos heof]
          simp only
          rw [List.append_nil, List.append_assoc, idsOf_append, idsOf_append,
            hrest]
          exact List.Sublist.append hpi
            (hsc ▸ List.Sublist.append hs2 (List.Sublist.refl _))
        · rw [if_neg heof]
          simp only
          rw [List.append_assoc, List.append_assoc, idsOf_append,
            idsOf_append, List.singleton_append, hrest]
          exact List.Sublist.append hpi
            (hsc ▸ List.Sublist.append hs2 (List.Sublist.refl _))

/-- The check-mode line loop only reads the token list: its output strips
to the input for any fuel. -/
theorem checker_module_lines_go_false_strip : ∀ (fuel : Nat) (rest : List Tok),
    ((checker_module_lines_go false fuel rest).1).map stripMeta =
      rest.map stripMeta := by
  intro fuel
  induction fuel with
  | zero => intro rest; rfl
  | succ fuel ih =>
    intro rest
    cases rest with
    | nil => rfl
    | cons t r =>
      simp only [checker_module_lines_go]
      by_cases he : t.ttype = Ltt.eof
      · rw [if_pos he]
      · rw [if_neg he]
        simp only
        rw [List.map_append, ih, ← List.map_append, processLine_false_strip]

/-- When the check-mode line loop prints nothing, the fix-mode loop makes
no change at all. -/
theorem checker_module_lines_go_fix_of_clean : ∀ (fuel : Nat)
    (rest : List Tok),
    (checker_module_lines_go false fuel rest).2 = [] →
      checker_module_lines_go true fuel rest =
        checker_module_lines_go false fuel rest := by
  intro fuel
  induction fuel with
  | zero => intro rest h; rfl
  | succ fuel ih =>
    intro rest h
    cases rest with
    | nil => rfl
    | cons t r =>
      simp only [checker_module_lines_go] at h ⊢
      by_cases he : t.ttype = Ltt.eof
      · simp only [if_pos he]
      · simp only [if_neg he] at h ⊢
        have h1 := (List.append_eq_nil.mp h).1
        have h2 := (List.append_eq_nil.mp h).2
        rw [processLine_fix_of_clean (t :: r) h1, ih _ h2]

/-- The fix-mode line loop preserves the non-whitespace tokens for any
fuel. -/
theorem checker_module_lines_go_true_nonWs : ∀ (fuel : Nat) (rest : List Tok),
    nonWsKT (checker_module_lines_go true fuel rest).1 = nonWsKT rest := by
  intro fuel
  induction fuel with
  | zero => intro rest; rfl
  | succ fuel ih =>
    intro rest
    cases rest with
    | nil => rfl
    | cons t r =>
      simp only [checker_module_lines_go]
      by_cases he : t.ttype = Ltt.eof
      · rw [if_pos he]
      · rw [if_neg he]
        simp only
        rw [nonWsKT_append, ih, ← nonWsKT_append, processLine_true_nonWs]

/-- The line loop keeps original token ids as a subsequence for any fuel
and either mode. -/
theorem checker_module_lines_go_ids (b : Bool) : ∀ (fuel : Nat)
    (rest : List Tok),
    (idsOf (checker_module_lines_go b fuel rest).1).Sublist (idsOf rest) := by
  intro fuel
  induction fuel with
  | zero => intro rest; exact List.Sublist.refl _
  | succ fuel ih =>
    intro rest
    cases rest with
    | nil => exact List.Sublist.refl _
    | cons t r =>
      simp only [checker_module_lines_go]
      by_cases he : t.ttype = Ltt.eof
      · rw [if_pos he]
      · rw [if_neg he]
        simp only
        rw [idsOf_append]
        have hp := processLine_ids b (t :: r)
        rw [idsOf_append] at hp
        exact List.Sublist.trans
          (List.Sublist.append (List.Sublist.refl _) (ih _)) hp

/-- `checker_module_lines` in check mode strips to its input. -/
theorem checker_module_lines_false_strip (toks : List Tok) :
    ((checker_module_lines false toks).1).map stripMeta =
      toks.map stripMeta :=
  checker_module_lines_go_false_strip _ toks

/-- A clean check-mode `checker_module_lines` run means the fix-mode run
changes nothing. -/
theorem checker_module_lines_fix_of_clean (toks : List Tok)
    (h : (checker_module_lines false toks).2 = []) :
    checker_module_lines true toks = checker_module_lines false toks :=
  checker_module_lines_go_fix_of_clean _ toks h

/-- `checker_module_lines` in fix mode preserves the non-whitespace
tokens. -/
theorem checker_module_lines_true_nonWs (toks : List Tok) :
    nonWsKT (checker_module_lines true toks).1 = nonWsKT toks :=
  checker_module_lines_go_true_nonWs _ toks

/-- `checker_module_lines` keeps original ids as a subsequence. -/
theorem checker_module_lines_ids (b : Bool) (toks : List Tok) :
    (idsOf (checker_module_lines b toks).1).Sublist (idsOf toks) :=
  checker_module_lines_go_ids b _ toks

/-- Both passes in check mode leave every token's identity, kind, text and
positions unchanged. -/
theorem checkerPasses_false_strip (m : CModule) (toks : List Tok) :
    ((checkerPasses false m toks).1).map stripMeta = toks.map stripMeta := by
  simp only [checkerPasses, checker_module_check]
  rw [checker_module_lines_false_strip, ckRun_false_stripMeta]

/-- A clean check (no diagnostics from either pass) means a fix run is a
no-op: it produces the same tokens and the same (empty) diagnostics. -/
theorem checkerPasses_fix_of_clean (m : CModule) (toks : List Tok)
    (h : (checkerPasses false m toks).2 = []) :
    checkerPasses true m toks = checkerPasses false m toks := by
  simp only [checkerPasses, checker_module_check] at h ⊢
  have h1 := (List.append_eq_nil.mp h).1
  have h2 := (List.append_eq_nil.mp h).2
  have hck := ckRun_fix_of_clean (ckModule m) ⟨toks, []⟩ h1
  rw [hck, checker_module_lines_fix_of_clean _ h2]

/-- Both passes in fix mode preserve the non-whitespace kind/text
subsequence. -/
theorem checkerPasses_true_nonWs (m : CModule) (toks : List Tok) :
    nonWsKT (checkerPasses true m toks).1 = nonWsKT toks := by
  simp only [checkerPasses, checker_module_check]
  rw [checker_module_lines_true_nonWs, ckRun_true_nonWs]

/-- Both passes keep the original (lexer-produced) token ids as a
subsequence: tokens are never duplicated or reordered, only whitespace
is dropped or manufactured. -/
theorem checkerPasses_ids (b : Bool) (m : CModule) (toks : List Tok) :
    (idsOf (checkerPasses b m toks).1).Sublist (idsOf toks) := by
  simp only [checkerPasses, checker_module_check]
  exact List.Sublist.trans (checker_module_lines_ids b _)
    (ckRun_ids b (ckModule m) ⟨toks, []⟩)

/-- Writing `indlvl` of the token with id `i` does not change the tokens
before it (their ids differ from `i`, so the write passes them by). -/
theorem preOf_setTokIndlvl (toks : List Tok) (i lvl : Nat) :
    preOf (setTokIndlvl toks i lvl) i = preOf toks i := by
  induction toks with
  | nil => rfl
  | cons t ts ih =>
    by_cases h : t.id = i
    · simp [preOf, setTokIndlvl, List.takeWhile_cons, updIndlvl, h]
    · simp only [preOf, setTokIndlvl, List.map_cons, List.takeWhile_cons,
        updIndlvl, h, if_false]
      have hd : (decide ¬t.id = i) = true := by simp [h]
      simp only [hd, if_true]
      unfold preOf setTokIndlvl at ih
      rw [ih]

theorem checker_prev_tok_setTokIndlvl (toks : List Tok) (i lvl : Nat) :
    checker_prev_tok (setTokIndlvl toks i lvl) i = checker_prev_tok toks i := by
  unfold checker_prev_tok
  rw [preOf_setTokIndlvl]

theorem checker_is_tok_lbegin_setTokIndlvl (toks : List Tok) (i lvl : Nat) :
    checker_is_tok_lbegin (setTokIndlvl toks i lvl) i =
      checker_is_tok_lbegin toks i := by
  unfold checker_is_tok_lbegin
  rw [preOf_setTokIndlvl]

/-- Writing `indlvl` of the token with id `i` maps over the suffix from
that token on without moving it. -/
theorem restOf_setTokIndlvl (toks : List Tok) (i lvl : Nat) :
    restOf (setTokIndlvl toks i lvl) i =
      (restOf toks i).map (updIndlvl i lvl) := by
  unfold restOf setTokIndlvl
  induction toks with
  | nil => rfl
  | cons t ts ih =>
    simp only [decide_not] at ih
    by_cases h : t.id = i
    · simp [updIndlvl, h, List.dropWhile_cons]
    · simp [updIndlvl, h, List.dropWhile_cons, ih]

/-- The head of `restOf` carries the id searched for. -/
theorem restOf_head_id : ∀ (toks : List Tok) (i : Nat) (a : Tok)
    (post : List Tok), restOf toks i = a :: post → a.id = i := by
  intro toks i
  induction toks with
  | nil =>
    intro a post h
    simp [restOf] at h
  | cons t ts ih =>
    intro a post h
    rw [restOf, List.dropWhile_cons] at h
    split at h
    · exact ih a post h
    · next hcond =>
      injection h with h1 h2
      subst h1
      simpa using hcond

/-- `preOf`/`restOf` of a list assembled from a prefix free of id `i` and
a suffix headed by the token with id `i` recover the two pieces. -/
theorem preOf_restOf_split : ∀ (l1 : List Tok) (i : Nat) (a : Tok)
    (post : List Tok), (∀ t ∈ l1, ¬ t.id = i) → a.id = i →
    preOf (l1 ++ a :: post) i = l1 ∧
      restOf (l1 ++ a :: post) i = a :: post := by
  intro l1 i a post
  induction l1 with
  | nil =>
    intro h1 ha
    constructor
    · unfold preOf
      rw [List.nil_append, List.takeWhile_cons]
      simp [ha]
    · unfold restOf
      rw [List.nil_append, List.dropWhile_cons]
      simp [ha]
  | cons t ts ih =>
    intro h1 ha
    have ht : ¬ t.id = i := h1 t (List.mem_cons_self t ts)
    have ih2 := ih (fun u hu => h1 u (List.mem_cons_of_mem _ hu)) ha
    constructor
    · have hts := ih2.1
      unfold preOf at hts ⊢
      rw [List.cons_append, List.takeWhile_cons]
      simp only [decide_not] at hts
      simp [ht, hts]
    · have hts := ih2.2
      unfold restOf at hts ⊢
      rw [List.cons_append, List.dropWhile_cons]
      simp only [decide_not] at hts
      simp [ht, hts]

/-!
The claims.
-/

/-- C1, counterexample: a check-mode `checker_run` on the wrongly indented
`int f(void)\n\x7b\nreturn 0;\n\x7d\n` reports a style violation, yet
returns `EOK` — the value returned by `checker_run` does not distinguish a
run that reported style violations from a clean run. -/
theorem checker_run_reports_but_eok :
    (checker_run (fun _ => Except.ok dirtyAst) ⟨Except.ok dirtyToks, none⟩
      false).2.1 =
      ["file:3:1-6: Wrong indentation: found 0 tabs, should be 1 tabs"] ∧
    (checker_run (fun _ => Except.ok dirtyAst) ⟨Except.ok dirtyToks, none⟩
      false).2.2 = Rc.eok :=
  ⟨rfl, rfl⟩

/-- C1, amended: whenever lexing and parsing succeed `checker_run` returns
`EOK`, in either mode and regardless of how many diagnostics were
reported; only a lexer or parser failure yields a nonzero return, so a
violating check is distinguished from a clean one solely by the printed
diagnostics, not by the result of `checker_run`. -/
theorem checker_run_eok_of_parse_ok (parse : List Tok → Except Rc CModule)
    (toks : List Tok) (ast : CModule) (fix : Bool)
    (h : parse toks = Except.ok ast) :
    (checker_run parse ⟨Except.ok toks, none⟩ fix).2.2 = Rc.eok := by
  simp [checker_run, h]

/-- C1, witness for the amended theorem at the dirty input. -/
theorem checker_run_eok_of_parse_ok_witness :
    (checker_run (fun _ => Except.ok dirtyAst) ⟨Except.ok dirtyToks, none⟩
      true).2.2 = Rc.eok :=
  checker_run_eok_of_parse_ok (fun _ => Except.ok dirtyAst) dirtyToks
    dirtyAst true rfl

/-- C2, counterexample: in `x␣␣\x7b` the brace (id 4) is preceded by two
spaces — not by exactly one space, as the spec requires — and is not first
on its line, yet check-mode `checker_check_nbspace_before` reports
nothing: the code only looks at whether the immediately preceding token is
whitespace. -/
theorem nbspace_before_two_spaces_unreported :
    spec_preceded_by_exactly_one_space c2toks 4 = false ∧
    checker_is_tok_lbegin c2toks 4 = false ∧
    (checker_check_nbspace_before false 0 4
      "Single space expected." ⟨c2toks, []⟩).diags = [] :=
  ⟨rfl, rfl, rfl⟩

/-- C2, amended: in check mode `checker_check_nbspace_before` reports its
diagnostic exactly when the token has a preceding token that is not
whitespace, or the token is first on its line — the length of a preceding
whitespace run is never examined; and in fix mode, under the same
condition, the repair deletes the whole whitespace run immediately before
the token and splices in one fresh single-space token, leaving the token
and everything after it in place. -/
theorem checker_check_nbspace_before_reports (lvl i : Nat) (msg : String)
    (st : St) (p : Tok) (hp : checker_prev_tok st.toks i = some p) :
    ((checker_check_nbspace_before false lvl i msg st).diags =
      st.diags ++
        (if ¬ lexer_is_wspace p.ttype || checker_is_tok_lbegin st.toks i
          then [diagLine p msg] else [])) ∧
    (restOf st.toks i ≠ [] →
      (checker_check_nbspace_before true lvl i msg st).toks =
        if ¬ lexer_is_wspace p.ttype || checker_is_tok_lbegin st.toks i then
          dropEndWhile (fun t => lexer_is_wspace t.ttype)
              (preOf (setTokIndlvl st.toks i lvl) i) ++
            mkWsTok Ltt.space " " ::
              restOf (setTokIndlvl st.toks i lvl) i
        else setTokIndlvl st.toks i lvl) := by
  have hp2 : checker_prev_tok (setTokIndlvl st.toks i lvl) i = some p := by
    rw [checker_prev_tok_setTokIndlvl]
    exact hp
  constructor
  · unfold checker_check_nbspace_before checker_check_any
    simp only
    simp only [hp2]
    rw [checker_is_tok_lbegin_setTokIndlvl]
    split
    next hcond =>
      simp only [Bool.false_eq_true, if_false]
      rfl
    next hcond => simp
  · intro hex
    have hex2 : restOf (setTokIndlvl st.toks i lvl) i ≠ [] := by
      rw [restOf_setTokIndlvl]
      simpa using hex
    unfold checker_check_nbspace_before checker_check_any
    simp only
    simp only [hp2]
    rw [checker_is_tok_lbegin_setTokIndlvl]
    simp only [if_true]
    split
    next hcond =>
      cases hr : restOf (setTokIndlvl st.toks i lvl) i with
      | nil => exact absurd hr hex2
      | cons a post =>
        have ha : a.id = i := restOf_head_id _ i a post hr
        have hdrop : ∀ t ∈ dropEndWhile (fun t => lexer_is_wspace t.ttype)
            (preOf (setTokIndlvl st.toks i lvl) i), ¬ t.id = i := by
          intro t ht
          have hmem :=
            (dropEndWhile_sublist (fun t => lexer_is_wspace t.ttype)
              (preOf (setTokIndlvl st.toks i lvl) i)).subset ht
          have := List.mem_takeWhile_imp hmem
          simpa using this
        obtain ⟨hpre2, hrest2⟩ := preOf_restOf_split
          (dropEndWhile (fun t => lexer_is_wspace t.ttype)
            (preOf (setTokIndlvl st.toks i lvl) i)) i a post hdrop ha
        unfold checker_remove_ws_before
        simp only [hr]
        unfold checker_prepend_wspace
        simp only [hrest2]
        rw [hpre2]
    next hcond => rfl

/-- C2, witness for the amended theorem: nothing is reported at the brace
behind two spaces, while in fix mode a brace directly behind `x` gets the
single space spliced in before it. -/
theorem checker_check_nbspace_before_reports_witness :
    (checker_check_nbspace_before false 0 4
      "Single space expected." ⟨c2toks, []⟩).diags = [] ∧
    (checker_check_nbspace_before true 0 2 "Single space expected."
      ⟨[mkTok 1 Ltt.other "x" 1 1 1 1, mkTok 2 Ltt.other "\x7b" 1 3 1 3],
       []⟩).toks =
      [mkTok 1 Ltt.other "x" 1 1 1 1, mkWsTok Ltt.space " ",
       mkTok 2 Ltt.other "\x7b" 1 3 1 3] := by
  constructor
  · have h := checker_check_nbspace_before_reports 0 4
      "Single space expected." ⟨c2toks, []⟩
      (mkTok 3 Ltt.space " " 1 3 1 3) rfl
    rw [h.1]
    decide
  · have h := checker_check_nbspace_before_reports 0 2
      "Single space expected."
      ⟨[mkTok 1 Ltt.other "x" 1 1 1 1, mkTok 2 Ltt.other "\x7b" 1 3 1 3],
       []⟩
      (mkTok 1 Ltt.other "x" 1 1 1 1) rfl
    rw [h.2 (by decide)]
    decide

/-- C3, counterexample: for the input `if (x)\x7b\n\treturn;\n\x7d\n` the
check-mode diagnostic is reported at `file:1:6` — the position of the
token before the brace, namely `)` — not at the brace's own position
`file:1:7` as the spec states. -/
theorem s3_diag_position_counterexample :
    "file:1:7: Expected single space before block opening brace." ∉
      (s3run false).2 ∧
    (s3run false).2 =
      ["file:1:6: Expected single space before block opening brace."] :=
  ⟨by decide, rfl⟩

/-- C3, amended: for the input `if (x)\x7b\n\treturn;\n\x7d\n`, check mode
reports exactly `file:1:6: Expected single space before block opening
brace.` (the diagnostic names the position of the token preceding the
brace), and fix mode prints `if (x) \x7b\n\treturn;\n\x7d\n`. -/
theorem s3_check_and_fix_output :
    (s3run false).2 =
      ["file:1:6: Expected single space before block opening brace."] ∧
    checker_print (s3run true).1 = "if (x) \x7b\n\treturn;\n\x7d\n" :=
  ⟨rfl, rfl⟩

/-- C4, counterexample: after the fix-mode run on scenario S3 the token
sequence is not non-decreasing in `bpos` — the space token manufactured by
`checker_prepend_wspace` carries the zeroed position (0,0) between
positions 1:6 and 1:7. -/
theorem bpos_not_nondecreasing_after_fix :
    ¬ bposNondecreasing (s3run true).1 := by decide

/-- C4, amended: the checker never permutes the token sequence: after
either mode's run the surviving original tokens (nonzero ids) form a
subsequence of the input's, in the input's order; repairs only drop
whitespace tokens or splice in fresh whitespace (id 0, position zeroed),
so ordering by source position holds for the original tokens but not for
inserted whitespace. -/
theorem checkerPasses_never_permutes (b : Bool) (m : CModule)
    (toks : List Tok) :
    (idsOf (checkerPasses b m toks).1).Sublist (idsOf toks) :=
  checkerPasses_ids b m toks

/-- C6: when the check-mode run reports zero violations, the fix-mode run
changes nothing: every token keeps its identity, kind, text and positions,
the regenerated output equals the input's, and no diagnostics appear. -/
theorem checkerPasses_clean_fix_noop (m : CModule) (toks : List Tok)
    (h : (checkerPasses false m toks).2 = []) :
    ((checkerPasses true m toks).1).map stripMeta = toks.map stripMeta ∧
    checker_print (checkerPasses true m toks).1 = checker_print toks ∧
    (checkerPasses true m toks).2 = [] := by
  have he := checkerPasses_fix_of_clean m toks h
  refine ⟨?_, ?_, ?_⟩
  · rw [he, checkerPasses_false_strip]
  · exact checker_print_eq_of_stripMeta
      (by rw [he, checkerPasses_false_strip])
  · rw [he, h]

/-- C6, witness at the clean input `int f(void)\n\x7b\n\treturn 0;\n\x7d\n`. -/
theorem checkerPasses_clean_fix_noop_witness :
    (checkerPasses false cleanAst cleanToks).2 = [] ∧
    checker_print (checkerPasses true cleanAst cleanToks).1 =
      checker_print cleanToks :=
  ⟨rfl, (checkerPasses_clean_fix_noop cleanAst cleanToks rfl).2.1⟩

/-- C7: a fix-mode run only inserts or removes whitespace tokens: the
subsequence of non-whitespace tokens, with their kinds and texts, is
invariant under repair. -/
theorem checkerPasses_fix_preserves_nonws (m : CModule) (toks : List Tok) :
    nonWsKT (checkerPasses true m toks).1 = nonWsKT toks :=
  checkerPasses_true_nonWs m toks

/-- C8: for a line-initial token that is not whitespace or a comment:
if (after the preprocessor adjustment) it does not begin a line and the
leading space count differs from `cont_indent_spaces` (4), check mode
issues the continuation-indent diagnostic; and when any of the five
indentation conditions triggers in fix mode the line's leading whitespace
is replaced by `indlvl` tab tokens followed by four space tokens exactly
when the token is not line-begin. -/
theorem checker_check_line_indent_continuation_and_fix
    (tabs spaces extra : Nat) (pref : List Tok) (tok : Tok)
    (hw : (lexer_is_wspace tok.ttype || decide (tok.ttype = Ltt.comment) ||
      decide (tok.ttype = Ltt.dscomment)) = false) :
    ((lineTokAdj tok).lbegin = false → (spaces != cont_indent_spaces) = true →
      diagLine (lineTokAdj tok) ("Continuation is indented by " ++
          toString spaces ++ " spaces (should be " ++
          toString cont_indent_spaces ++ ")") ∈
        (checker_check_line_indent false tabs spaces extra pref tok).diags) ∧
    (((extra != 0) || ((lineTokAdj tok).lbegin && (spaces != 0)) ||
        (!(lineTokAdj tok).lbegin && (spaces != cont_indent_spaces)) ||
        ((lineTokAdj tok).indlvl != tabs) ||
        ((lineTokAdj tok).ttype == Ltt.tab)) = true →
      (checker_check_line_indent true tabs spaces extra pref tok).pref =
        List.replicate (lineTokAdj tok).indlvl (mkWsTok Ltt.tab "\t") ++
          (if !(lineTokAdj tok).lbegin then
            List.replicate cont_indent_spaces (mkWsTok Ltt.space " ")
          else [])) := by
  constructor
  · intro hlb hsp
    simp only [checker_check_line_indent]
    simp only [hw, Bool.false_eq_true, if_false]
    simp only [Bool.not_false, Bool.and_true, hlb, Bool.true_and, hsp,
      if_true]
    simp
  · intro htrig
    simp only [checker_check_line_indent]
    simp only [hw, Bool.false_eq_true, if_false]
    simp only [Bool.true_and, htrig, if_true]

/-- C8, witness: a continuation `return` token with `indlvl` 0, no leading
whitespace at all. -/
theorem checker_check_line_indent_continuation_and_fix_witness :
    (diagLine (lineTokAdj (mkTok 1 Ltt.other "return" 3 1 3 6))
        ("Continuation is indented by " ++ toString 0 ++
         " spaces (should be " ++ toString cont_indent_spaces ++ ")") ∈
      (checker_check_line_indent false 0 0 0 []
        (mkTok 1 Ltt.other "return" 3 1 3 6)).diags) ∧
    (checker_check_line_indent true 0 0 0 []
        (mkTok 1 Ltt.other "return" 3 1 3 6)).pref =
      List.replicate
          (lineTokAdj (mkTok 1 Ltt.other "return" 3 1 3 6)).indlvl
          (mkWsTok Ltt.tab "\t") ++
        (if !(lineTokAdj (mkTok 1 Ltt.other "return" 3 1 3 6)).lbegin then
          List.replicate cont_indent_spaces (mkWsTok Ltt.space " ")
        else []) := by
  have h := checker_check_line_indent_continuation_and_fix 0 0 0 []
    (mkTok 1 Ltt.other "return" 3 1 3 6) (by decide)
  exact ⟨h.1 (by decide) (by decide), h.2 (by decide)⟩

/-- C9: a check-mode run never inserts or removes tokens and never changes
a token's kind, text or positions (only the `indlvl`/`lbegin` metadata),
so printing the source afterwards reproduces the input. -/
theorem checkerPasses_check_frame (m : CModule) (toks : List Tok) :
    ((checkerPasses false m toks).1).map stripMeta = toks.map stripMeta ∧
    checker_print (checkerPasses false m toks).1 = checker_print toks :=
  ⟨checkerPasses_false_strip m toks,
   checker_print_eq_of_stripMeta (checkerPasses_false_strip m toks)⟩

/-- C10: `checker_run` is lazily memoized on the checker's module: after a
first call on a fresh checker whose lexing succeeded, a second call — with
any parser and either value of the fix flag — performs no checking,
changes no state, prints nothing and returns `EOK`. -/
theorem checker_run_memoized (parse parse2 : List Tok → Except Rc CModule)
    (c : Checker) (fix fix2 : Bool) (toks : List Tok)
    (h : c.lexRes = Except.ok toks) (hm : c.mod = none) :
    checker_run parse2 (checker_run parse c fix).1 fix2 =
      ((checker_run parse c fix).1, [], Rc.eok) := by
  have hnoop : ∀ (p2 : List Tok → Except Rc CModule) (c2 : Checker)
      (f2 : Bool) (md : ModuleData), c2.mod = some md →
      checker_run p2 c2 f2 = (c2, [], Rc.eok) := by
    intro p2 c2 f2 md hmd2
    unfold checker_run
    rw [hmd2]
  have hmod : ∃ md, ((checker_run parse c fix).1).mod = some md := by
    simp only [checker_run, hm, h]
    cases parse toks with
    | error rc => exact ⟨⟨toks, none⟩, rfl⟩
    | ok ast => exact ⟨⟨(checkerPasses fix ast toks).1, some ast⟩, rfl⟩
  obtain ⟨md, hmd⟩ := hmod
  exact hnoop parse2 _ fix2 md hmd

/-- C10, witness: a second run after checking a lone end-of-file token. -/
theorem checker_run_memoized_witness :
    checker_run (fun _ => Except.ok ([] : CModule))
        ((checker_run (fun _ => Except.ok ([] : CModule))
          ⟨Except.ok [mkTok 1 Ltt.eof "" 1 1 1 1], none⟩ false).1) true =
      ((checker_run (fun _ => Except.ok ([] : CModule))
          ⟨Except.ok [mkTok 1 Ltt.eof "" 1 1 1 1], none⟩ false).1, [],
        Rc.eok) :=
  checker_run_memoized (fun _ => Except.ok ([] : CModule))
    (fun _ => Except.ok ([] : CModule))
    ⟨Except.ok [mkTok 1 Ltt.eof "" 1 1 1 1], none⟩ false true
    [mkTok 1 Ltt.eof "" 1 1 1 1] rfl rfl

end Sycek
